import Mathlib

/-!
# Verification of the paperfetch candidate-resolution pipeline

Shallow embedding of the decision logic of `paperfetch` (files
`paperfetch/select.py`, `paperfetch/cli.py`, `paperfetch/title_llm.py`).

Modelling conventions:
* Python strings are Lean `String`s, manipulated through their `List Char`
  representation.  `str.lower`/`str.upper` are mapped per character
  (`Char.toLower`/`Char.toUpper`); this agrees with Python on ASCII data,
  which is the character range the normalisation pipeline cares about
  (anything non-ASCII is erased by `normalize_text` in both readings).
* Python floats are modelled as exact numbers: the scoring pipeline of
  `select.py` only ever adds rational constants except for
  `math.log1p(citations) * 14.0`, which is modelled with `Real.log`.
  Scores that never touch the logarithm are kept in `ℚ`.
* A paper is a Python dict; the `Paper` structure below has one field per
  key the verified functions read.  `year = 0` plays the role of Python
  `None`/`0`, which the code cannot distinguish (every read site guards
  with `or`-defaulting, where both are falsy).
* Fallible functions return `Option`/`Except`.
-/

namespace PaperFetch

/-! ## Python string primitives -/

/-- The character class `[a-z0-9]` used by `normalize_text` and the
acronym-penalty regexes of `select.py`. -/
def isLowerNum (c : Char) : Bool :=
  (('a' ≤ c) && (c ≤ 'z')) || (('0' ≤ c) && (c ≤ '9'))

/-- Regex `\w` (word character), ASCII range. -/
def isWordChar (c : Char) : Bool :=
  (('a' ≤ c) && (c ≤ 'z')) || (('A' ≤ c) && (c ≤ 'Z')) ||
  (('0' ≤ c) && (c ≤ '9')) || (c = '_')

/-- Python `str.isspace` / regex `\s` character class (ASCII part). -/
def isPyWs (c : Char) : Bool :=
  c = ' ' || c = '\t' || c = '\n' || c = '\r' || c = '\x0b' || c = '\x0c'

/-- Python `str.lower()` (per-character; exact on ASCII). -/
def lowerStr (s : String) : String := ⟨s.data.map Char.toLower⟩

/-- Python `str.upper()` (per-character; exact on ASCII). -/
def upperStr (s : String) : String := ⟨s.data.map Char.toUpper⟩

/-- Drop leading characters satisfying `p` from both ends of a list. -/
def stripList (p : Char → Bool) (l : List Char) : List Char :=
  ((l.dropWhile p).reverse.dropWhile p).reverse

/-- Python `str.strip()` (no arguments: strips whitespace). -/
def pyStrip (s : String) : String := ⟨stripList isPyWs s.data⟩

/-- Python `str.strip(chars)` for an explicit strip set. -/
def pyStripSet (set : List Char) (s : String) : String :=
  ⟨stripList (fun c => set.contains c) s.data⟩

/-- Split a character list into its maximal runs of characters *not*
satisfying `p`, dropping empty runs: the list of tokens.  `splitRuns` keeps
the current (leftmost) partial run separate from the finished tokens. -/
def splitRuns (p : Char → Bool) : List Char → List Char × List (List Char)
  | [] => ([], [])
  | c :: rest =>
      if p c then
        ([], if (splitRuns p rest).1 = [] then (splitRuns p rest).2
             else (splitRuns p rest).1 :: (splitRuns p rest).2)
      else (c :: (splitRuns p rest).1, (splitRuns p rest).2)

def tokensBy (p : Char → Bool) (l : List Char) : List (List Char) :=
  let r := splitRuns p l
  if r.1 = [] then r.2 else r.1 :: r.2

/-- Python `str.split()` (split on whitespace, dropping empties). -/
def wsTokens (s : String) : List String :=
  (tokensBy isPyWs s.data).map fun t => (⟨t⟩ : String)

/-- Join tokens with a single space (`" ".join`). -/
def joinSpaces : List (List Char) → List Char
  | [] => []
  | [t] => t
  | t :: ts => t ++ ' ' :: joinSpaces ts

/-- Replace every maximal run of whitespace by a single `' '`:
`re.sub(r"\s+", " ", ·)`.  `inRun` records whether the previous character
was part of a whitespace run already replaced. -/
def squeezeWsAux (inRun : Bool) : List Char → List Char
  | [] => []
  | c :: rest =>
      if isPyWs c then (if inRun then [] else [' ']) ++ squeezeWsAux true rest
      else c :: squeezeWsAux false rest

def squeezeWs (s : String) : String := ⟨squeezeWsAux false s.data⟩

/-- Python substring test `needle in hay` (contiguous). -/
def containsSub (hay needle : List Char) : Bool :=
  hay.tails.any fun t => needle.isPrefixOf t

/-!
`normalize_text` (select.py:9-10):
```python
def normalize_text(text):
    return re.sub(r"\s+", " ", re.sub(r"[^a-z0-9]+", " ", text.lower())).strip()
```
Replacing every maximal run of non-`[a-z0-9]` characters by one space,
collapsing whitespace runs and stripping is the same as taking the maximal
`[a-z0-9]` runs of the lowercased text and joining them with single
spaces. -/

def normChars (l : List Char) : List Char :=
  joinSpaces (tokensBy (fun c => !(isLowerNum c)) (l.map Char.toLower))

def normalizeText (s : String) : String := ⟨normChars s.data⟩

/-- Tokens of the normalised text: `normalize_text(s).split()`. -/
def normTokens (s : String) : List String :=
  (tokensBy (fun c => c = ' ') (normalizeText s).data).map fun t => (⟨t⟩ : String)

/-! ### Character-level facts about `normalizeText` -/

theorem splitRuns_chars (p : Char → Bool) (l : List Char) :
    (∀ c ∈ (splitRuns p l).1, p c = false) ∧
    (∀ t ∈ (splitRuns p l).2, ∀ c ∈ t, p c = false) := by
  induction l with
  | nil => exact ⟨by simp [splitRuns], by simp [splitRuns]⟩
  | cons c rest ih =>
      by_cases hc : p c
      · refine ⟨by simp [splitRuns, hc], ?_⟩
        intro t ht
        simp only [splitRuns, hc, if_pos] at ht
        by_cases h1 : (splitRuns p rest).1 = []
        · simp [h1] at ht
          exact ih.2 t ht
        · simp [h1] at ht
          rcases ht with h | h
          · exact fun d hd => ih.1 d (h ▸ hd)
          · exact ih.2 t h
      · constructor
        · intro d hd
          simp [splitRuns, hc] at hd
          rcases hd with h | h
          · subst h; simpa using hc
          · exact ih.1 d h
        · intro t ht
          simp only [splitRuns, hc, if_neg, Bool.false_eq_true] at ht
          simp at ht
          exact ih.2 t ht

theorem tokensBy_chars (p : Char → Bool) (l : List Char) :
    ∀ t ∈ tokensBy p l, ∀ c ∈ t, p c = false := by
  intro t ht c hc
  have h := splitRuns_chars p l
  unfold tokensBy at ht
  by_cases h1 : (splitRuns p l).1 = []
  · simp [h1] at ht
    exact h.2 t ht c hc
  · simp [h1] at ht
    rcases ht with he | he
    · exact h.1 c (he ▸ hc)
    · exact h.2 t he c hc

theorem joinSpaces_chars (ts : List (List Char)) :
    ∀ c ∈ joinSpaces ts, c = ' ' ∨ ∃ t ∈ ts, c ∈ t := by
  induction ts with
  | nil => simp [joinSpaces]
  | cons t ts ih =>
      cases ts with
      | nil => intro c hc; exact Or.inr ⟨t, by simp, by simpa [joinSpaces] using hc⟩
      | cons u us =>
          intro c hc
          simp only [joinSpaces] at hc
          rcases List.mem_append.1 hc with h | h
          · exact Or.inr ⟨t, by simp, h⟩
          · rcases List.mem_cons.1 h with h | h
            · exact Or.inl h
            · rcases ih c h with h | ⟨v, hv, hcv⟩
              · exact Or.inl h
              · exact Or.inr ⟨v, by simp [hv], hcv⟩

/-- Every character of `normalizeText s` is either a space or in `[a-z0-9]`;
in particular the output never contains a hyphen. -/
theorem normalizeText_chars (s : String) :
    ∀ c ∈ (normalizeText s).data, c = ' ' ∨ isLowerNum c = true := by
  intro c hc
  have hc : c ∈ normChars s.data := hc
  unfold normChars at hc
  rcases joinSpaces_chars _ c hc with h | ⟨t, ht, hct⟩
  · exact Or.inl h
  · right
    have := tokensBy_chars (fun c => !(isLowerNum c)) (s.data.map Char.toLower) t ht c hct
    simpa using this

theorem normalizeText_no_hyphen (s : String) : '-' ∉ (normalizeText s).data := by
  intro h
  rcases normalizeText_chars s '-' h with h | h
  · exact absurd h (by decide)
  · exact absurd h (by decide)

/-! ## The acronym-variant penalty regexes (select.py:54-59)

```python
if len(keyword_norm) <= 8 and " " not in keyword_norm:
    escaped = re.escape(keyword_norm)
    if re.search(rf"\b[a-z0-9]+-{escaped}\b", title_norm):
        score -= 8.0
    if re.search(rf"\b{escaped}-{escaped}\b"...)  # KEYWORD-x side analogous
```
The two patterns are matched existentially (`re.search` only feeds an `if`),
so we model them as decidable searches over the character list.  `\b` is the
usual word-boundary: word-character status differs between the two adjacent
positions (ends of string count as non-word). -/

/-- Word boundary between a last matched character and the remainder. -/
def boundaryAfter (last : Char) (rest : List Char) : Bool :=
  isWordChar last != (match rest with | [] => false | c :: _ => isWordChar c)

/-- Word boundary before a first pattern character given the previous char. -/
def boundaryBefore (first : Char) (prev : Option Char) : Bool :=
  isWordChar first != (match prev with | none => false | some c => isWordChar c)

/-- Does `s` start with `'-' ++ kw` followed by a word boundary?
(The tail of the pattern `[a-z0-9]+-KW\b` after the alphanumeric run.) -/
def dashKwAt (kw : List Char) : List Char → Bool
  | '-' :: r2 => kw.isPrefixOf r2 && boundaryAfter (kw.getLastD '-') (r2.drop kw.length)
  | _ => false

/-- Does `s` start with `[a-z0-9]+-kw\b` (a nonempty alphanumeric run, any
split point between run and `-kw` tail accepted — `re.search` is an
existence test, so greedy-with-backtracking and "any split" coincide)? -/
def lvFrom (kw : List Char) : List Char → Bool
  | [] => false
  | c :: rest => isLowerNum c && (dashKwAt kw rest || lvFrom kw rest)

/-- `re.search(r"\b[a-z0-9]+-KW\b", s)`: try the pattern at every position
of `s`, remembering the previous character for the leading word boundary
(the first pattern character is alphanumeric, hence a word character). -/
def searchLeftVariantAux (kw : List Char) : Option Char → List Char → Bool
  | _, [] => false
  | prev, c :: rest =>
      (boundaryBefore c prev && lvFrom kw (c :: rest))
        || searchLeftVariantAux kw (some c) rest

/-- The `x-KEYWORD` penalty test of select.py:56. -/
def searchLeftVariant (kw s : String) : Bool :=
  searchLeftVariantAux kw.data none s.data

/-- Tail of the pattern `KW-[a-z0-9]+\b` after `kw`: a `'-'`, then a
nonempty alphanumeric run ending at a word boundary. -/
def alnumRunBoundary : List Char → Bool
  | [] => false
  | c :: rest => isLowerNum c && (boundaryAfter c rest || alnumRunBoundary rest)

/-- Does `s` start with `kw-[a-z0-9]+\b`? -/
def rvFrom (kw : List Char) (s : List Char) : Bool :=
  kw.isPrefixOf s &&
    (match s.drop kw.length with
     | '-' :: r2 => alnumRunBoundary r2
     | _ => false)

/-- `re.search(r"\bKW-[a-z0-9]+\b", s)`; the leading word boundary is
computed against the first pattern character (`kw`'s head, or the `'-'`
when `kw` is empty). -/
def searchRightVariantAux (kw : List Char) : Option Char → List Char → Bool
  | _, [] => false
  | prev, c :: rest =>
      (boundaryBefore (kw.headD '-') prev && rvFrom kw (c :: rest))
        || searchRightVariantAux kw (some c) rest

/-- The `KEYWORD-x` penalty test of select.py:58. -/
def searchRightVariant (kw s : String) : Bool :=
  searchRightVariantAux kw.data none s.data

/-! Any match of either pattern contains a literal `'-'` character. -/

theorem dashKwAt_mem (kw s : List Char) (h : dashKwAt kw s = true) : '-' ∈ s := by
  unfold dashKwAt at h
  split at h
  · simp
  · exact absurd h (by simp)

theorem lvFrom_mem (kw s : List Char) (h : lvFrom kw s = true) : '-' ∈ s := by
  induction s with
  | nil => simp [lvFrom] at h
  | cons c rest ih =>
      simp only [lvFrom, Bool.and_eq_true, Bool.or_eq_true] at h
      rcases h.2 with h2 | h2
      · exact List.mem_cons_of_mem c (dashKwAt_mem kw rest h2)
      · exact List.mem_cons_of_mem c (ih h2)

theorem searchLeftVariantAux_mem (kw : List Char) (prev : Option Char) (s : List Char)
    (h : searchLeftVariantAux kw prev s = true) : '-' ∈ s := by
  induction s generalizing prev with
  | nil => simp [searchLeftVariantAux] at h
  | cons c rest ih =>
      simp only [searchLeftVariantAux, Bool.or_eq_true, Bool.and_eq_true] at h
      rcases h with h | h
      · exact lvFrom_mem kw (c :: rest) h.2
      · exact List.mem_cons_of_mem c (ih (some c) h)

theorem rvFrom_mem (kw s : List Char) (h : rvFrom kw s = true) : '-' ∈ s := by
  simp only [rvFrom, Bool.and_eq_true] at h
  rcases h with ⟨-, h2⟩
  revert h2
  split
  · rename_i heq
    intro _
    have : '-' ∈ s.drop kw.length := by rw [heq]; simp
    exact List.mem_of_mem_drop this
  · intro h; exact absurd h (by simp)

theorem searchRightVariantAux_mem (kw : List Char) (prev : Option Char) (s : List Char)
    (h : searchRightVariantAux kw prev s = true) : '-' ∈ s := by
  induction s generalizing prev with
  | nil => simp [searchRightVariantAux] at h
  | cons c rest ih =>
      simp only [searchRightVariantAux, Bool.or_eq_true, Bool.and_eq_true] at h
      rcases h with h | h
      · exact rvFrom_mem kw (c :: rest) h.2
      · exact List.mem_cons_of_mem c (ih (some c) h)

/-! ## `_query_relevance_score` (select.py:34-61) -/

/-- The acronym-variant penalty block (select.py:53-59): applies only when
the normalised keyword is a single token of at most 8 characters, and adds
8 for each of the two hyphen-compound patterns found in the (normalised)
title. -/
def hyphenPenalty (kwNorm titleNorm : String) : ℚ :=
  if kwNorm.length ≤ 8 ∧ containsSub kwNorm.data [' '] = false then
    (if searchLeftVariant kwNorm titleNorm then 8 else 0)
      + (if searchRightVariant kwNorm titleNorm then 8 else 0)
  else 0

/-- `len(set(keyword_norm.split()) & set(title_norm.split()))`: the number
of distinct keyword tokens also appearing among the title tokens. -/
def tokenOverlap (keywordNorm titleNorm : String) : ℕ :=
  ((wsTokens keywordNorm).dedup.filter fun t => (wsTokens titleNorm).contains t).length

/-- `len(set(keyword_norm.split()))`. -/
def keywordTokenCount (keywordNorm : String) : ℕ := (wsTokens keywordNorm).dedup.length

/-- `_query_relevance_score(keyword, title)`.  The Python accumulation
`score = 0; if sub: score += 20; if overlap: score += … else: score -= 10;
…penalty…` is written as the corresponding sum. -/
def queryRelevanceScore (keyword title : String) : ℚ :=
  if normalizeText title = "" ∨ normalizeText keyword = "" then -8
  else
    (if containsSub (normalizeText title).data (normalizeText keyword).data then (20 : ℚ) else 0)
      + (if 0 < tokenOverlap (normalizeText keyword) (normalizeText title) then
           15 * (tokenOverlap (normalizeText keyword) (normalizeText title) : ℚ)
             / ((max 1 (keywordTokenCount (normalizeText keyword)) : ℕ) : ℚ)
         else -10)
      - hyphenPenalty (normalizeText keyword) (normalizeText title)

/-- The hyphen-compound searches can never succeed on a `normalize_text`
output, because normalisation has already replaced every hyphen by a
space: the penalty term of the scorer is identically zero. -/
theorem hyphenPenalty_of_normalized_eq_zero (kwNorm : String) (title : String) :
    hyphenPenalty kwNorm (normalizeText title) = 0 := by
  unfold hyphenPenalty
  split
  · have hl : searchLeftVariant kwNorm (normalizeText title) = false := by
      cases h : searchLeftVariant kwNorm (normalizeText title)
      · rfl
      · exact absurd (searchLeftVariantAux_mem _ _ _ h) (normalizeText_no_hyphen title)
    have hr : searchRightVariant kwNorm (normalizeText title) = false := by
      cases h : searchRightVariant kwNorm (normalizeText title)
      · rfl
      · exact absurd (searchRightVariantAux_mem _ _ _ h) (normalizeText_no_hyphen title)
    simp [hl, hr]
  · rfl

/-- C3: the acronym-variant penalty of `_query_relevance_score` is dead
code.  The two regexes are searched in `title_norm`, but `normalize_text`
has already replaced every hyphen with a space, so no hyphenated compound
can ever be found: the penalty is 0 for *every* keyword and title.  In
particular the spec's flagship example — keyword `"DETR"` against the
title `"DN-DETR: Accelerate DETR Training"` — scores 35 (20 substring
+ 15 full token overlap), not the 27 the claimed penalty would give. -/
theorem claim_C3_acronym_penalty_dead :
    (∀ keyword title : String,
        hyphenPenalty (normalizeText keyword) (normalizeText title) = 0) ∧
    queryRelevanceScore "DETR" "DN-DETR: Accelerate DETR Training" = 35 := by
  constructor
  · exact fun keyword title => hyphenPenalty_of_normalized_eq_zero _ title
  · have hne : ¬ (normalizeText "DN-DETR: Accelerate DETR Training" = "" ∨
        normalizeText "DETR" = "") := by decide
    have hsub : containsSub (normalizeText "DN-DETR: Accelerate DETR Training").data
        (normalizeText "DETR").data = true := by decide
    have hov : tokenOverlap (normalizeText "DETR")
        (normalizeText "DN-DETR: Accelerate DETR Training") = 1 := by decide
    have hcnt : keywordTokenCount (normalizeText "DETR") = 1 := by decide
    have hpen := hyphenPenalty_of_normalized_eq_zero (normalizeText "DETR")
      "DN-DETR: Accelerate DETR Training"
    unfold queryRelevanceScore
    rw [if_neg hne, if_pos hsub, hov, hcnt, hpen]
    norm_num

/-! ## Claim C4: the relevance base is additive, not either/or -/

/-- Modelled from the spec sentence of claim C4 (its "otherwise (else)"
reading): the relevance base is `+20` when the normalised keyword is a
substring of the normalised title, and only *otherwise* the token-overlap
bonus or the `−10` penalty.  This is the claimed behaviour, written down
for comparison with `queryRelevanceScore` (the code). -/
def claimedRelevanceBase (keyword title : String) : ℚ :=
  if normalizeText title = "" ∨ normalizeText keyword = "" then -8
  else if containsSub (normalizeText title).data (normalizeText keyword).data then 20
  else if 0 < tokenOverlap (normalizeText keyword) (normalizeText title) then
    15 * (tokenOverlap (normalizeText keyword) (normalizeText title) : ℚ)
      / ((max 1 (keywordTokenCount (normalizeText keyword)) : ℕ) : ℚ)
  else -10

/-- C4 counterexample: on keyword `"focal loss"` and title `"focal loss"`
the code's relevance value is `20 + 15 = 35` (substring bonus *plus* full
token overlap; the hyphen penalty is 0), while the claimed either/or base
gives `20`.  The claim as stated is therefore false on the code. -/
theorem claim_C4_counterexample :
    queryRelevanceScore "focal loss" "focal loss" = 35 ∧
    claimedRelevanceBase "focal loss" "focal loss" = 20 ∧
    hyphenPenalty (normalizeText "focal loss") (normalizeText "focal loss") = 0 ∧
    (35 : ℚ) ≠ 20 := by
  refine ⟨?_, ?_, hyphenPenalty_of_normalized_eq_zero _ _, by norm_num⟩
  · have hne : ¬ (normalizeText "focal loss" = "" ∨ normalizeText "focal loss" = "") := by
      decide
    have hsub : containsSub (normalizeText "focal loss").data
        (normalizeText "focal loss").data = true := by decide
    have hov : tokenOverlap (normalizeText "focal loss") (normalizeText "focal loss") = 2 := by
      decide
    have hcnt : keywordTokenCount (normalizeText "focal loss") = 2 := by decide
    have hpen := hyphenPenalty_of_normalized_eq_zero (normalizeText "focal loss") "focal loss"
    unfold queryRelevanceScore
    rw [if_neg hne, if_pos hsub, hov, hcnt, hpen]
    norm_num
  · have hne : ¬ (normalizeText "focal loss" = "" ∨ normalizeText "focal loss" = "") := by
      decide
    have hsub : containsSub (normalizeText "focal loss").data
        (normalizeText "focal loss").data = true := by decide
    unfold claimedRelevanceBase
    rw [if_neg hne, if_pos hsub]

/-- `containsSub` decides list-infix (Python's `in` on strings). -/
theorem containsSub_iff (hay needle : List Char) :
    containsSub hay needle = true ↔ needle <:+: hay := by
  unfold containsSub
  rw [List.any_eq_true]
  constructor
  · rintro ⟨t, ht, hp⟩
    exact List.infix_iff_prefix_suffix.2
      ⟨t, List.isPrefixOf_iff_prefix.1 hp, (List.mem_tails _ _).1 ht⟩
  · intro h
    rcases List.infix_iff_prefix_suffix.1 h with ⟨t, hp, hs⟩
    exact ⟨t, (List.mem_tails _ _).2 hs, List.isPrefixOf_iff_prefix.2 hp⟩

/-- The token-overlap count is the cardinality of the intersection of the
two (finite) token sets, and the keyword token count the cardinality of
the keyword token set. -/
theorem tokenOverlap_eq_card_inter (keywordNorm titleNorm : String) :
    tokenOverlap keywordNorm titleNorm =
      ((wsTokens keywordNorm).toFinset ∩ (wsTokens titleNorm).toFinset).card := by
  unfold tokenOverlap
  have hnd : ((wsTokens keywordNorm).dedup.filter
      fun t => (wsTokens titleNorm).contains t).Nodup :=
    (List.nodup_dedup _).filter _
  have : ((wsTokens keywordNorm).dedup.filter
      fun t => (wsTokens titleNorm).contains t).toFinset =
      (wsTokens keywordNorm).toFinset ∩ (wsTokens titleNorm).toFinset := by
    ext x
    simp [List.mem_filter, List.mem_dedup, List.elem_iff]
  rw [← List.toFinset_card_of_nodup hnd, this]

theorem keywordTokenCount_eq_card (keywordNorm : String) :
    keywordTokenCount keywordNorm = (wsTokens keywordNorm).toFinset.card := by
  unfold keywordTokenCount
  rw [List.card_toFinset]

/-- C4 amended: when both normalised strings are nonempty, the relevance
value of `_query_relevance_score` is the *sum* of the substring bonus
(`+20` iff the normalised keyword is an infix of the normalised title) and
the token-overlap term (`15·|K∩T|/max(1,|K|)` when the token sets `K`, `T`
share a member, `−10` otherwise); the substring bonus and the overlap term
are additive, not exclusive. -/
theorem claim_C4_relevance_base_additive (keyword title : String)
    (hk : normalizeText keyword ≠ "") (ht : normalizeText title ≠ "") :
    queryRelevanceScore keyword title =
      (if (normalizeText keyword).data <:+: (normalizeText title).data then (20 : ℚ) else 0)
        + (if ((wsTokens (normalizeText keyword)).toFinset ∩
              (wsTokens (normalizeText title)).toFinset).Nonempty then
             15 * (((wsTokens (normalizeText keyword)).toFinset ∩
                (wsTokens (normalizeText title)).toFinset).card : ℚ)
               / ((max 1 (wsTokens (normalizeText keyword)).toFinset.card : ℕ) : ℚ)
           else -10) := by
  unfold queryRelevanceScore
  rw [if_neg (by simp [hk, ht]), hyphenPenalty_of_normalized_eq_zero, sub_zero]
  congr 1
  · rcases h : containsSub (normalizeText title).data (normalizeText keyword).data with _ | _
    · have hni : ¬ (normalizeText keyword).data <:+: (normalizeText title).data := by
        intro hin
        have hc := (containsSub_iff _ _).2 hin
        simp [h] at hc
      simp [hni]
    · simp [(containsSub_iff _ _).1 h]
  · rw [tokenOverlap_eq_card_inter, keywordTokenCount_eq_card]
    rcases hin : ((wsTokens (normalizeText keyword)).toFinset ∩
        (wsTokens (normalizeText title)).toFinset).card with _ | n
    · rw [if_neg (by simp), if_neg (by simp [Finset.card_eq_zero.1 hin])]
    · rw [if_pos (Nat.succ_pos n),
        if_pos (Finset.card_pos.1 (by rw [hin]; exact Nat.succ_pos n))]

/-- Witness for the amended C4 theorem at concrete input. -/
theorem claim_C4_relevance_base_additive_witness :
    normalizeText "focal loss" ≠ "" ∧
    queryRelevanceScore "focal loss" "focal loss for dense object detection" =
      (if (normalizeText "focal loss").data <:+:
          (normalizeText "focal loss for dense object detection").data then (20 : ℚ) else 0)
        + (if ((wsTokens (normalizeText "focal loss")).toFinset ∩
              (wsTokens (normalizeText "focal loss for dense object detection")).toFinset).Nonempty then
             15 * (((wsTokens (normalizeText "focal loss")).toFinset ∩
                (wsTokens (normalizeText "focal loss for dense object detection")).toFinset).card : ℚ)
               / ((max 1 (wsTokens (normalizeText "focal loss")).toFinset.card : ℕ) : ℚ)
           else -10) :=
  ⟨by decide, claim_C4_relevance_base_additive "focal loss"
    "focal loss for dense object detection" (by decide) (by decide)⟩

/-! ## The paper record

A provider result is a Python dict; `Paper` has one field per key that the
verified functions read.  `year = 0` stands for both Python `None` and
`0`, which every read site (`year or default`, `str(year or "")`,
truthiness in the merge loop) treats identically.  `citationCount` is read
everywhere through `int(… or 0)`, so a plain `Int` field suffices.
`openAccessPdf` is a nested object in Python; the merge loop only tests
its truthiness and copies it opaquely, so it is modelled as a `String`
(`""` = absent). -/

structure Paper where
  paperId : String := ""
  title : String := ""
  year : Int := 0
  venue : String := ""
  volume : String := ""
  issue : String := ""
  pages : String := ""
  url : String := ""
  rawType : String := ""
  pdfUrl : String := ""
  openAccessPdf : String := ""
  documentType : String := ""
  citationCount : Int := 0
  externalIds : List (String × String) := []
  authors : List String := []
  pdfUrls : List String := []
  deriving DecidableEq

/-- `str(paper.get("year") or "").strip()`. -/
def yearString (p : Paper) : String :=
  pyStrip (if p.year = 0 then "" else toString p.year)

/-- `int(paper.get("year") or d)`. -/
def yearOrDefault (d : Int) (p : Paper) : Int := if p.year = 0 then d else p.year

/-- First value for a key in an association list (Python `dict.get`). -/
def assocLookup (l : List (String × String)) (k : String) : Option String :=
  match l with
  | [] => none
  | kv :: rest => if kv.1 = k then some kv.2 else assocLookup rest k

/-- `get_doi` (select.py:13-18): `externalIds.get("DOI") or
externalIds.get("doi")`, stringified, stripped, `None` when empty. -/
def getDoi (p : Paper) : Option String :=
  let a := (assocLookup p.externalIds "DOI").getD ""
  let v := if a ≠ "" then a else (assocLookup p.externalIds "doi").getD ""
  if pyStrip v = "" then none else some (pyStrip v)

/-- `is_arxiv_doi` (select.py:21-25). -/
def isArxivDoi (doi : Option String) : Bool :=
  match doi with
  | none => false
  | some d =>
      if d = "" then false
      else ("10.48550/arxiv.".data.isPrefixOf (lowerStr d).data)
        || containsSub (lowerStr d).data "arxiv".data

/-- `is_preprint` (select.py:28-31): `"arxiv" in external_ids` is a *key*
membership test (exact, lowercase), `venue` is compared lowercased. -/
def isPreprint (p : Paper) : Bool :=
  (assocLookup p.externalIds "arxiv").isSome || lowerStr p.venue = "arxiv"

/-! ## Claim C1: `_merge_and_dedupe_papers` (cli.py:133-145) -/

/-- The identity key of `_merge_and_dedupe_papers`:
`paper_id or f"{title}::{year}"` with
`title = str(paper.get("title") or "").strip().lower()` — note: only
stripped and lowercased, *not* `normalize_text`. -/
def mergeDedupeKey (p : Paper) : String :=
  let pid := pyStrip p.paperId
  if pid ≠ "" then pid else lowerStr (pyStrip p.title) ++ "::" ++ yearString p

def mergeAndDedupeGo (seen : List String) : List Paper → List Paper
  | [] => []
  | p :: rest =>
      if mergeDedupeKey p = "" ∨ mergeDedupeKey p ∈ seen then mergeAndDedupeGo seen rest
      else p :: mergeAndDedupeGo (mergeDedupeKey p :: seen) rest

def mergeAndDedupePapers (papers : List Paper) : List Paper :=
  mergeAndDedupeGo [] papers

/-- The key is never the empty string (it is either a nonempty id or
contains the literal `"::"`), so the `if not key` guard never fires. -/
theorem mergeDedupeKey_ne_empty (p : Paper) : mergeDedupeKey p ≠ "" := by
  unfold mergeDedupeKey
  by_cases h : pyStrip p.paperId = ""
  · rw [if_neg (by simp [h])]
    intro hc
    have hd : (lowerStr (pyStrip p.title) ++ "::" ++ yearString p).data
        = ("" : String).data := by rw [hc]
    simp [String.data_append] at hd
  · rw [if_pos h]
    exact h

/-- Position `ip.1` of `l` holds the first occurrence of its key: no
earlier position carries the same key. -/
def keptAt (key : Paper → String) (l : List Paper) (ip : ℕ × Paper) : Prop :=
  ∀ q ∈ l.take ip.1, key q ≠ key ip.2

instance (key : Paper → String) (l : List Paper) : DecidablePred (keptAt key l) :=
  fun _ => List.decidableBAll _ _

/-- `keptAt` relative to a set of already-seen keys. -/
def keptAtSeen (key : Paper → String) (seen : List String) (l : List Paper)
    (ip : ℕ × Paper) : Prop :=
  key ip.2 ∉ seen ∧ ∀ q ∈ l.take ip.1, key q ≠ key ip.2

instance (key : Paper → String) (seen : List String) (l : List Paper) :
    DecidablePred (keptAtSeen key seen l) := fun _ => by
  unfold keptAtSeen; infer_instance

/-- The list of first occurrences of `l` under `key`: position `i` is kept
iff no earlier position carries the same key.  (A non-recursive
specification of keyed deduplication.) -/
def firstOccurrencesByKey (key : Paper → String) (l : List Paper) : List Paper :=
  (l.enum.filter fun ip => decide (keptAt key l ip)).map Prod.snd

theorem snd_comp_shift :
    (Prod.snd ∘ Prod.map (· + 1) (@id Paper)) = Prod.snd := by
  funext ip; rcases ip with ⟨i, q⟩; rfl

theorem mergeAndDedupeGo_spec (l : List Paper) (seen : List String) :
    mergeAndDedupeGo seen l =
      (l.enum.filter fun ip =>
        decide (keptAtSeen mergeDedupeKey seen l ip)).map Prod.snd := by
  induction l generalizing seen with
  | nil => simp [mergeAndDedupeGo]
  | cons p rest ih =>
      have hkey := mergeDedupeKey_ne_empty p
      rw [List.enum_cons, List.enumFrom_eq_map_enum]
      by_cases hmem : mergeDedupeKey p ∈ seen
      · rw [show mergeAndDedupeGo seen (p :: rest) = mergeAndDedupeGo seen rest by
          simp [mergeAndDedupeGo, hmem]]
        rw [ih seen]
        rw [List.filter_cons_of_neg (by simp [keptAtSeen, hmem])]
        rw [List.filter_map, List.map_map, snd_comp_shift]
        refine congrArg (List.map Prod.snd) (List.filter_congr ?_).symm
        intro ip _
        rcases ip with ⟨i, q⟩
        simp only [Function.comp_apply, decide_eq_decide]
        unfold keptAtSeen
        simp only [Prod.map, id, List.take_succ_cons, List.forall_mem_cons]
        constructor
        · rintro ⟨h1, _, h3⟩
          exact ⟨h1, h3⟩
        · rintro ⟨h1, h3⟩
          exact ⟨h1, fun he => h1 (he ▸ hmem), h3⟩
      · rw [show mergeAndDedupeGo seen (p :: rest)
            = p :: mergeAndDedupeGo (mergeDedupeKey p :: seen) rest by
          simp [mergeAndDedupeGo, hmem, hkey]]
        rw [ih (mergeDedupeKey p :: seen)]
        rw [List.filter_cons_of_pos (by simp [keptAtSeen, hmem])]
        rw [List.map_cons, List.filter_map, List.map_map, snd_comp_shift]
        refine congrArg (fun x => p :: List.map Prod.snd x) (List.filter_congr ?_).symm
        intro ip _
        rcases ip with ⟨i, q⟩
        simp only [Function.comp_apply, decide_eq_decide]
        unfold keptAtSeen
        simp only [Prod.map, id, List.take_succ_cons, List.forall_mem_cons]
        simp only [List.mem_cons, not_or]
        constructor
        · rintro ⟨h1, h2, h3⟩
          exact ⟨⟨fun he => h2 he.symm, h1⟩, h3⟩
        · rintro ⟨⟨h1, h2⟩, h3⟩
          exact ⟨h2, fun he => h1 he.symm, h3⟩

/-- C1 amended: `_merge_and_dedupe_papers` returns exactly the first
occurrences of its input under `mergeDedupeKey` (provider id if nonempty,
else *stripped lowercased* title `++ "::" ++` year — not the
`normalize_text` normalisation the claim states), preserving input
order. -/
theorem claim_C1_merge_dedupe_first_occurrences (l : List Paper) :
    mergeAndDedupePapers l = firstOccurrencesByKey mergeDedupeKey l := by
  unfold mergeAndDedupePapers firstOccurrencesByKey
  rw [mergeAndDedupeGo_spec l []]
  congr 1
  apply List.filter_congr
  intro ip _
  rw [decide_eq_decide]
  unfold keptAtSeen keptAt
  simp

/-- C1 counterexample: two distinct records whose titles agree under
`normalize_text` (`"A B"` vs `"A-B"`), same year, no provider id.  The
claim says the output has exactly one instance; the code keeps both,
because its key lowercases and strips but does not remove
non-alphanumerics. -/
theorem claim_C1_counterexample :
    normalizeText (Paper.mk "" "A B" 2020 "" "" "" "" "" "" "" "" "" 0 [] [] []).title
        = normalizeText (Paper.mk "" "A-B" 2020 "" "" "" "" "" "" "" "" "" 0 [] [] []).title ∧
    (Paper.mk "" "A B" 2020 "" "" "" "" "" "" "" "" "" 0 [] [] []).year
        = (Paper.mk "" "A-B" 2020 "" "" "" "" "" "" "" "" "" 0 [] [] []).year ∧
    (Paper.mk "" "A B" 2020 "" "" "" "" "" "" "" "" "" 0 [] [] []).paperId = "" ∧
    (Paper.mk "" "A B" 2020 "" "" "" "" "" "" "" "" "" 0 [] [] [])
        ≠ (Paper.mk "" "A-B" 2020 "" "" "" "" "" "" "" "" "" 0 [] [] []) ∧
    mergeAndDedupePapers
        [Paper.mk "" "A B" 2020 "" "" "" "" "" "" "" "" "" 0 [] [] [],
         Paper.mk "" "A-B" 2020 "" "" "" "" "" "" "" "" "" 0 [] [] []]
      = [Paper.mk "" "A B" 2020 "" "" "" "" "" "" "" "" "" 0 [] [] [],
         Paper.mk "" "A-B" 2020 "" "" "" "" "" "" "" "" "" 0 [] [] []] := by
  refine ⟨by decide, by decide, by decide, by decide, by decide⟩

/-! ## `score_paper` (select.py:64-85) -/

/-- Does `s` start with the word `w` followed by a word boundary? -/
def wordAt (w : List Char) (s : List Char) : Bool :=
  w.isPrefixOf s && boundaryAfter (w.getLastD ' ') (s.drop w.length)

/-- `re.search(r"\b(survey|review)\b", s)`: scan every position for either
word with boundaries on both sides. -/
def searchWordsAux (ws : List (List Char)) : Option Char → List Char → Bool
  | _, [] => false
  | prev, c :: rest =>
      (ws.any fun w => boundaryBefore (w.headD ' ') prev && wordAt w (c :: rest))
        || searchWordsAux ws (some c) rest

def searchSurveyWord (s : String) : Bool :=
  searchWordsAux ["survey".data, "review".data] none s.data

/-- `score_paper(keyword, paper)`.  `math.log1p` is modelled with
`Real.log`; every other term is an exact rational (Python's float constants
`80.0`, `0.8`, … are treated as the reals they denote). -/
noncomputable def scorePaper (keyword : String) (p : Paper) : ℝ :=
  ((queryRelevanceScore keyword p.title : ℚ) : ℝ)
    + (if (getDoi p).isSome ∧ isArxivDoi (getDoi p) = false then (80 : ℝ) else 0)
    + (if isPreprint p then (-20 : ℝ) else 40)
    + Real.log (1 + ((max 0 p.citationCount : ℤ) : ℝ)) * 14
    + (if searchSurveyWord (lowerStr p.title) then (-30 : ℝ) else 0)
    + (if yearOrDefault 9999 p < 9999 then
         max 0 ((2030 - (yearOrDefault 9999 p : ℝ)) * (8 / 10)) else 0)

/-! ## Lexicographic three-component ranking (Python tuple comparison) -/

/-- Python `>` on 3-tuples: strict lexicographic order. -/
def lexLt {β₁ β₂ β₃ : Type} [LT β₁] [LT β₂] [LT β₃] (a b : β₁ × β₂ × β₃) : Prop :=
  a.1 < b.1 ∨ (a.1 = b.1 ∧ (a.2.1 < b.2.1 ∨ (a.2.1 = b.2.1 ∧ a.2.2 < b.2.2)))

def lexLe {β₁ β₂ β₃ : Type} [LT β₁] [LT β₂] [LT β₃] (a b : β₁ × β₂ × β₃) : Prop :=
  lexLt a b ∨ a = b

instance {β₁ β₂ β₃ : Type} [LinearOrder β₁] [LinearOrder β₂] [LinearOrder β₃]
    (a b : β₁ × β₂ × β₃) : Decidable (lexLt a b) := by
  unfold lexLt; infer_instance

theorem lexLt_irrefl {β₁ β₂ β₃ : Type} [LinearOrder β₁] [LinearOrder β₂] [LinearOrder β₃]
    (a : β₁ × β₂ × β₃) : ¬ lexLt a a := by
  unfold lexLt
  simp

theorem lexLt_trans {β₁ β₂ β₃ : Type} [LinearOrder β₁] [LinearOrder β₂] [LinearOrder β₃]
    {a b c : β₁ × β₂ × β₃} (h1 : lexLt a b) (h2 : lexLt b c) : lexLt a c := by
  unfold lexLt at h1 h2 ⊢
  rcases h1 with h1 | ⟨e1, h1⟩
  · rcases h2 with h2 | ⟨e2, _⟩
    · exact Or.inl (lt_trans h1 h2)
    · exact Or.inl (e2 ▸ h1)
  · rcases h2 with h2 | ⟨e2, h2⟩
    · exact Or.inl (e1 ▸ h2)
    · refine Or.inr ⟨e1.trans e2, ?_⟩
      rcases h1 with h1 | ⟨f1, h1⟩
      · rcases h2 with h2 | ⟨f2, _⟩
        · exact Or.inl (lt_trans h1 h2)
        · exact Or.inl (f2 ▸ h1)
      · rcases h2 with h2 | ⟨f2, h2⟩
        · exact Or.inl (f1 ▸ h2)
        · exact Or.inr ⟨f1.trans f2, lt_trans h1 h2⟩

theorem lexLe_of_not_lexLt {β₁ β₂ β₃ : Type} [LinearOrder β₁] [LinearOrder β₂]
    [LinearOrder β₃] {a b : β₁ × β₂ × β₃} (h : ¬ lexLt a b) : lexLe b a := by
  rcases a with ⟨a1, a2, a3⟩
  rcases b with ⟨b1, b2, b3⟩
  unfold lexLt at h
  push_neg at h
  rcases lt_trichotomy b1 a1 with h1 | h1 | h1
  · exact Or.inl (Or.inl h1)
  · subst h1
    rcases lt_trichotomy b2 a2 with h2 | h2 | h2
    · exact Or.inl (Or.inr ⟨rfl, Or.inl h2⟩)
    · subst h2
      rcases lt_trichotomy b3 a3 with h3 | h3 | h3
      · exact Or.inl (Or.inr ⟨rfl, Or.inr ⟨rfl, h3⟩⟩)
      · subst h3; exact Or.inr rfl
      · exact absurd h3 (by simpa using (h.2 rfl).2 rfl)
    · exact absurd h2 (by simpa using (h.2 rfl).1)
  · exact absurd h1 (by simpa using h.1)

theorem lexLt_of_lexLe_of_lexLt {β₁ β₂ β₃ : Type} [LinearOrder β₁] [LinearOrder β₂]
    [LinearOrder β₃] {a b c : β₁ × β₂ × β₃} (h1 : lexLe a b) (h2 : lexLt b c) :
    lexLt a c := by
  rcases h1 with h1 | rfl
  · exact lexLt_trans h1 h2
  · exact h2

theorem lexLt_of_lexLt_of_lexLe {β₁ β₂ β₃ : Type} [LinearOrder β₁] [LinearOrder β₂]
    [LinearOrder β₃] {a b c : β₁ × β₂ × β₃} (h1 : lexLt a b) (h2 : lexLe b c) :
    lexLt a c := by
  rcases h2 with h2 | rfl
  · exact lexLt_trans h1 h2
  · exact h1

theorem lexLe_refl {β₁ β₂ β₃ : Type} [LT β₁] [LT β₂] [LT β₃] (a : β₁ × β₂ × β₃) :
    lexLe a a := Or.inr rfl

theorem lexLe_fst {β₁ β₂ β₃ : Type} [LinearOrder β₁] [LinearOrder β₂] [LinearOrder β₃]
    {a b : β₁ × β₂ × β₃} (h : lexLe a b) : a.1 ≤ b.1 := by
  rcases h with h | rfl
  · rcases h with h | ⟨e, _⟩
    · exact le_of_lt h
    · exact le_of_eq e
  · exact le_refl _

/-- The best-so-far loop shared by `pick_best_candidate` (select.py:88-103)
and `_pick_best_backup_match` (cli.py:229-255): iterate, replacing the
current best exactly when the new item's key is strictly greater. -/
def bestLoop {α : Type} {β₁ β₂ β₃ : Type} [LinearOrder β₁] [LinearOrder β₂]
    [LinearOrder β₃] (key : α → β₁ × β₂ × β₃) : Option α → List α → Option α
  | best, [] => best
  | none, p :: rest => bestLoop key (some p) rest
  | some b, p :: rest =>
      if lexLt (key b) (key p) then bestLoop key (some p) rest
      else bestLoop key (some b) rest

/-- Full characterisation of the loop started at `some b`: it returns the
*first* item (in `b :: l` order) whose key is maximal — everything before
it is strictly below, everything in the list is at most it. -/
theorem bestLoop_spec {α : Type} {β₁ β₂ β₃ : Type} [LinearOrder β₁] [LinearOrder β₂]
    [LinearOrder β₃] (key : α → β₁ × β₂ × β₃) (l : List α) (b : α) :
    ∃ l1 r l2, b :: l = l1 ++ r :: l2 ∧ bestLoop key (some b) l = some r ∧
      (∀ q ∈ l1, lexLt (key q) (key r)) ∧
      (∀ q ∈ b :: l, lexLe (key q) (key r)) := by
  induction l generalizing b with
  | nil =>
      refine ⟨[], b, [], rfl, rfl, by simp, ?_⟩
      intro q hq
      simp at hq
      subst hq
      exact lexLe_refl _
  | cons p rest ih =>
      by_cases h : lexLt (key b) (key p)
      · rcases ih p with ⟨l1, r, l2, heq, hrun, hl1, hall⟩
        refine ⟨b :: l1, r, l2, ?_, ?_, ?_, ?_⟩
        · simpa using congrArg (fun x => b :: x) heq
        · simpa [bestLoop, h] using hrun
        · intro q hq
          rcases List.mem_cons.1 hq with rfl | hq
          · exact lexLt_of_lexLt_of_lexLe h (hall p (by simp))
          · exact hl1 q hq
        · intro q hq
          rcases List.mem_cons.1 hq with rfl | hq
          · exact Or.inl (lexLt_of_lexLt_of_lexLe h (hall p (by simp)))
          · exact hall q hq
      · have hpb : lexLe (key p) (key b) := lexLe_of_not_lexLt h
        rcases ih b with ⟨l1, r, l2, heq, hrun, hl1, hall⟩
        cases l1 with
        | nil =>
            simp only [List.nil_append, List.cons.injEq] at heq
            obtain ⟨rfl, rfl⟩ := heq
            refine ⟨[], b, p :: rest, rfl, ?_, by simp, ?_⟩
            · simpa [bestLoop, h] using hrun
            · intro q hq
              rcases List.mem_cons.1 hq with rfl | hq
              · exact lexLe_refl _
              · rcases List.mem_cons.1 hq with rfl | hq
                · exact hpb
                · exact hall q (by simp [hq])
        | cons x t =>
            simp only [List.cons_append, List.cons.injEq] at heq
            obtain ⟨rfl, heq⟩ := heq
            have hbr : lexLt (key b) (key r) := hl1 b (by simp)
            refine ⟨b :: p :: t, r, l2, ?_, ?_, ?_, ?_⟩
            · simp [heq]
            · simpa [bestLoop, h] using hrun
            · intro q hq
              rcases List.mem_cons.1 hq with rfl | hq
              · exact hbr
              · rcases List.mem_cons.1 hq with rfl | hq
                · exact lexLt_of_lexLe_of_lexLt hpb hbr
                · exact hl1 q (by simp [hq])
            · intro q hq
              rcases List.mem_cons.1 hq with rfl | hq
              · exact hall q (by simp)
              · rcases List.mem_cons.1 hq with rfl | hq
                · exact Or.inl (lexLt_of_lexLe_of_lexLt hpb hbr)
                · exact hall q (List.mem_cons_of_mem b hq)

/-! ## Claims C7 and C9: `pick_best_candidate` (select.py:88-103) -/

/-- The ranking key of `pick_best_candidate`:
`(score, max(0, citations), -int(year or 9999))`. -/
noncomputable def rankKey (keyword : String) (p : Paper) : ℝ × ℤ × ℤ :=
  (scorePaper keyword p, max 0 p.citationCount, -(yearOrDefault 9999 p))

/-- `pick_best_candidate`: `none` models the raised
`ValueError("No candidate was selected from search results.")`. -/
noncomputable def pickBestCandidate (keyword : String) (papers : List Paper) :
    Option Paper :=
  bestLoop (rankKey keyword) none papers

/-- C7: `pick_best_candidate` fails exactly on the empty candidate list;
a singleton input returns its element unconditionally; a nonempty input
returns a member that is maximal under the ranking key
(score, citations, −year) — the lexicographic Python tuple order. -/
theorem claim_C7_rule_selector_contract (keyword : String) (papers : List Paper) :
    (pickBestCandidate keyword papers = none ↔ papers = []) ∧
    (∀ x : Paper, papers = [x] → pickBestCandidate keyword papers = some x) ∧
    (papers ≠ [] → ∃ r ∈ papers, pickBestCandidate keyword papers = some r ∧
        ∀ q ∈ papers, lexLe (rankKey keyword q) (rankKey keyword r)) := by
  refine ⟨?_, ?_, ?_⟩
  · cases papers with
    | nil => simp [pickBestCandidate, bestLoop]
    | cons p rest =>
        rcases bestLoop_spec (rankKey keyword) rest p with ⟨l1, r, l2, _, hrun, _, _⟩
        simp only [pickBestCandidate, bestLoop, hrun]
        simp
  · rintro x rfl
    rcases bestLoop_spec (rankKey keyword) [] x with ⟨l1, r, l2, heq, hrun, _, _⟩
    have hx : r = x := by
      cases l1 with
      | nil =>
          simp only [List.nil_append, List.cons.injEq] at heq
          exact heq.1.symm
      | cons a t =>
          simp only [List.cons_append, List.cons.injEq] at heq
          exact absurd heq.2 (by simp)
    subst hx
    simp only [pickBestCandidate, bestLoop]
  · intro h
    cases papers with
    | nil => exact absurd rfl h
    | cons p rest =>
        rcases bestLoop_spec (rankKey keyword) rest p with ⟨l1, r, l2, heq, hrun, _, hall⟩
        exact ⟨r, by rw [heq]; simp, by simpa [pickBestCandidate, bestLoop] using hrun,
          hall⟩

/-- Witness for C7 at a concrete singleton call. -/
theorem claim_C7_rule_selector_contract_witness :
    (pickBestCandidate "resnet"
        [Paper.mk "w" "Deep Residual Learning" 2016 "" "" "" "" "" "" "" "" "" 12 [] [] []]
      = none ↔
      [Paper.mk "w" "Deep Residual Learning" 2016 "" "" "" "" "" "" "" "" "" 12 [] [] []]
        = []) ∧
    (∀ x : Paper,
      [Paper.mk "w" "Deep Residual Learning" 2016 "" "" "" "" "" "" "" "" "" 12 [] [] []]
        = [x] →
      pickBestCandidate "resnet"
        [Paper.mk "w" "Deep Residual Learning" 2016 "" "" "" "" "" "" "" "" "" 12 [] [] []]
        = some x) ∧
    ([Paper.mk "w" "Deep Residual Learning" 2016 "" "" "" "" "" "" "" "" "" 12 [] [] []]
        ≠ [] →
      ∃ r ∈ [Paper.mk "w" "Deep Residual Learning" 2016 "" "" "" "" "" "" "" "" "" 12 [] [] []],
        pickBestCandidate "resnet"
          [Paper.mk "w" "Deep Residual Learning" 2016 "" "" "" "" "" "" "" "" "" 12 [] [] []]
          = some r ∧
        ∀ q ∈ [Paper.mk "w" "Deep Residual Learning" 2016 "" "" "" "" "" "" "" "" "" 12 [] [] []],
          lexLe (rankKey "resnet" q) (rankKey "resnet" r)) :=
  claim_C7_rule_selector_contract "resnet"
    [Paper.mk "w" "Deep Residual Learning" 2016 "" "" "" "" "" "" "" "" "" 12 [] [] []]

/-- C9: when several records share the maximal key, `pick_best_candidate`
returns the first of them in input order — the comparison is strict, so a
later record with an equal key never replaces the current best. -/
theorem claim_C9_rule_selector_first_argmax (keyword : String) (papers : List Paper)
    (h : papers ≠ []) :
    ∃ l1 r l2, papers = l1 ++ r :: l2 ∧ pickBestCandidate keyword papers = some r ∧
      (∀ q ∈ l1, lexLt (rankKey keyword q) (rankKey keyword r)) ∧
      (∀ q ∈ papers, lexLe (rankKey keyword q) (rankKey keyword r)) := by
  cases papers with
  | nil => exact absurd rfl h
  | cons p rest =>
      rcases bestLoop_spec (rankKey keyword) rest p with ⟨l1, r, l2, heq, hrun, hl1, hall⟩
      exact ⟨l1, r, l2, heq, by simpa [pickBestCandidate, bestLoop] using hrun, hl1, hall⟩

/-- Witness for C9 on a two-element list whose records differ only in
`paperId`: the first one is returned (equal keys, first occurrence). -/
theorem claim_C9_rule_selector_first_argmax_witness :
    ([Paper.mk "idA" "T" 2020 "" "" "" "" "" "" "" "" "" 3 [] [] [],
      Paper.mk "idB" "T" 2020 "" "" "" "" "" "" "" "" "" 3 [] [] []] ≠ ([] : List Paper)) ∧
    (∃ l1 r l2,
      [Paper.mk "idA" "T" 2020 "" "" "" "" "" "" "" "" "" 3 [] [] [],
       Paper.mk "idB" "T" 2020 "" "" "" "" "" "" "" "" "" 3 [] [] []] = l1 ++ r :: l2 ∧
      pickBestCandidate "T"
          [Paper.mk "idA" "T" 2020 "" "" "" "" "" "" "" "" "" 3 [] [] [],
           Paper.mk "idB" "T" 2020 "" "" "" "" "" "" "" "" "" 3 [] [] []] = some r ∧
      (∀ q ∈ l1, lexLt (rankKey "T" q) (rankKey "T" r)) ∧
      (∀ q ∈ [Paper.mk "idA" "T" 2020 "" "" "" "" "" "" "" "" "" 3 [] [] [],
              Paper.mk "idB" "T" 2020 "" "" "" "" "" "" "" "" "" 3 [] [] []],
        lexLe (rankKey "T" q) (rankKey "T" r))) :=
  ⟨by simp, claim_C9_rule_selector_first_argmax "T" _ (by simp)⟩

/-! ## Claim C2: `_build_validation_pool` (cli.py:148-193) -/

/-- Python `sorted(l, key=k, reverse=True)`: a *stable* descending sort.
Insertion sort with the relation "`a` may precede `b` iff `k b ≤ k a`"
reproduces it exactly: an element is inserted before the first element
whose key is `≤` its own, i.e. after every strictly greater key and
before every equal key (the equal ones were earlier inserted and stand
later in the original list). -/
def pySortDesc {α β : Type} [LinearOrder β] (k : α → β) (l : List α) : List α :=
  @List.insertionSort α (fun x y => k y ≤ k x)
    (fun x y => inferInstanceAs (Decidable (k y ≤ k x))) l

theorem pySortDesc_perm {α β : Type} [LinearOrder β] (k : α → β) (l : List α) :
    (pySortDesc k l).Perm l := by
  unfold pySortDesc
  exact List.perm_insertionSort _ l

theorem pySortDesc_sorted {α β : Type} [LinearOrder β] (k : α → β) (l : List α) :
    List.Sorted (fun a b => k b ≤ k a) (pySortDesc k l) := by
  unfold pySortDesc
  haveI : IsTotal α fun a b => k b ≤ k a := ⟨fun a b => le_total (k b) (k a)⟩
  haveI : IsTrans α fun a b => k b ≤ k a := ⟨fun _ _ _ hab hbc => le_trans hbc hab⟩
  exact List.sorted_insertionSort _ l

theorem orderedInsert_filter_key {α β : Type} [LinearOrder β] (k : α → β) (a : α)
    (l : List α) (v : β) :
    (@List.orderedInsert α (fun x y => k y ≤ k x)
        (fun x y => inferInstanceAs (Decidable (k y ≤ k x))) a l).filter
        (fun x => decide (k x = v)) =
      if k a = v then a :: l.filter (fun x => decide (k x = v))
      else l.filter (fun x => decide (k x = v)) := by
  induction l with
  | nil =>
      simp only [List.orderedInsert]
      by_cases hv : k a = v
      · simp [hv]
      · simp [hv]
  | cons b l ih =>
      simp only [List.orderedInsert]
      by_cases hr : k b ≤ k a
      · rw [if_pos hr]
        by_cases hv : k a = v
        · simp [List.filter_cons, hv]
        · simp [List.filter_cons, hv]
      · rw [if_neg hr]
        have hlt : k a < k b := lt_of_not_le hr
        by_cases hv : k a = v
        · have hbv : ¬ k b = v := fun hb => absurd (hv ▸ hb ▸ hlt) (lt_irrefl _)
          simp only [List.filter_cons, ih]
          simp [hv, hbv]
        · simp only [List.filter_cons, ih]
          by_cases hbv : k b = v
          · simp [hv, hbv]
          · simp [hv, hbv]

/-- Stability of `pySortDesc`: for every key value `v`, the elements with
`k = v` appear in the sorted output exactly in input order. -/
theorem pySortDesc_stable {α β : Type} [LinearOrder β] (k : α → β) (l : List α)
    (v : β) :
    (pySortDesc k l).filter (fun x => decide (k x = v)) =
      l.filter (fun x => decide (k x = v)) := by
  induction l with
  | nil => rfl
  | cons a l ih =>
      show (@List.orderedInsert α (fun x y => k y ≤ k x)
          (fun x y => inferInstanceAs (Decidable (k y ≤ k x))) a
          (pySortDesc k l)).filter (fun x => decide (k x = v)) = _
      rw [orderedInsert_filter_key, ih]
      by_cases hv : k a = v
      · simp [List.filter_cons, hv]
      · simp [List.filter_cons, hv]

/-- The pool identity key (cli.py:159-162):
`paper_id or f"{normalize_text(title)}::{year}"`. -/
def poolKey (p : Paper) : String :=
  let pid := pyStrip p.paperId
  if pid ≠ "" then pid else normalizeText p.title ++ "::" ++ yearString p

/-- `add_paper` (cli.py:158-166), on the state `(keep, seen)`. -/
def addPaper (st : List Paper × List String) (p : Paper) : List Paper × List String :=
  if poolKey p = "" ∨ poolKey p ∈ st.2 then st
  else (st.1 ++ [p], poolKey p :: st.2)

/-- The keyed first-occurrence filter relative to already-seen keys: what
a run of `add_paper` appends. -/
def dedupePoolFrom (seen : List String) : List Paper → List Paper
  | [] => []
  | p :: rest =>
      if poolKey p = "" ∨ poolKey p ∈ seen then dedupePoolFrom seen rest
      else p :: dedupePoolFrom (poolKey p :: seen) rest

/-- The seen-set after a run of `add_paper`. -/
def poolSeenAfter (seen : List String) : List Paper → List String
  | [] => seen
  | p :: rest =>
      if poolKey p = "" ∨ poolKey p ∈ seen then poolSeenAfter seen rest
      else poolSeenAfter (poolKey p :: seen) rest

theorem dedupePoolFrom_cons (seen : List String) (p : Paper) (rest : List Paper) :
    dedupePoolFrom seen (p :: rest) =
      if poolKey p = "" ∨ poolKey p ∈ seen then dedupePoolFrom seen rest
      else p :: dedupePoolFrom (poolKey p :: seen) rest := rfl

theorem poolSeenAfter_cons (seen : List String) (p : Paper) (rest : List Paper) :
    poolSeenAfter seen (p :: rest) =
      if poolKey p = "" ∨ poolKey p ∈ seen then poolSeenAfter seen rest
      else poolSeenAfter (poolKey p :: seen) rest := rfl

theorem foldl_addPaper_spec (l : List Paper) (keep : List Paper) (seen : List String) :
    l.foldl addPaper (keep, seen) = (keep ++ dedupePoolFrom seen l, poolSeenAfter seen l) := by
  induction l generalizing keep seen with
  | nil => simp [dedupePoolFrom, poolSeenAfter]
  | cons p rest ih =>
      rw [dedupePoolFrom_cons, poolSeenAfter_cons]
      by_cases h : poolKey p = "" ∨ poolKey p ∈ seen
      · rw [List.foldl_cons, show addPaper (keep, seen) p = (keep, seen) by
          unfold addPaper; rw [if_pos h]]
        rw [ih keep seen, if_pos h, if_pos h]
      · rw [List.foldl_cons, show addPaper (keep, seen) p
            = (keep ++ [p], poolKey p :: seen) by unfold addPaper; rw [if_neg h]]
        rw [ih (keep ++ [p]) (poolKey p :: seen), if_neg h, if_neg h]
        simp

theorem dedupePoolFrom_append (seen : List String) (l1 l2 : List Paper) :
    dedupePoolFrom seen (l1 ++ l2) =
      dedupePoolFrom seen l1 ++ dedupePoolFrom (poolSeenAfter seen l1) l2 := by
  induction l1 generalizing seen with
  | nil => simp [dedupePoolFrom, poolSeenAfter]
  | cons p rest ih =>
      simp only [List.cons_append]
      rw [dedupePoolFrom_cons, dedupePoolFrom_cons, poolSeenAfter_cons]
      by_cases h : poolKey p = "" ∨ poolKey p ∈ seen
      · rw [if_pos h, if_pos h, if_pos h]
        exact ih seen
      · rw [if_neg h, if_neg h, if_neg h]
        rw [ih (poolKey p :: seen)]
        simp

/-- The ranked-fill loop of cli.py:189-192: add, then stop as soon as the
pool holds at least `size` entries. -/
def rankedLoop (size : ℕ) : List Paper × List String → List Paper → List Paper × List String
  | st, [] => st
  | st, p :: rest =>
      if size ≤ (addPaper st p).1.length then addPaper st p
      else rankedLoop size (addPaper st p) rest

/-- The exact-title phase state (cli.py:168-182): for each proposed title
with nonempty normalisation, `add_paper` every exact normalised-title hit
in descending citation order. -/
def exactPhaseState (titles : List String) (papers : List Paper) :
    List Paper × List String :=
  titles.foldl (fun st t =>
    if normalizeText t = "" then st
    else (pySortDesc (fun p => p.citationCount)
        (papers.filter fun p => normalizeText p.title = normalizeText t)).foldl
      addPaper st) ([], [])

/-- The concatenation of all exact-title hit runs, in proposal order. -/
def exactTitlePhase (titles : List String) (papers : List Paper) : List Paper :=
  (titles.map fun t =>
    if normalizeText t = "" then []
    else pySortDesc (fun p => p.citationCount)
      (papers.filter fun p => normalizeText p.title = normalizeText t)).flatten

/-- `_build_validation_pool(keyword, papers, validation_candidates,
proposed_titles)` (cli.py:148-193). -/
noncomputable def buildValidationPool (keyword : String) (papers : List Paper)
    (validationCandidates : ℤ) (proposedTitles : List String) : List Paper :=
  ((rankedLoop (max 1 validationCandidates).toNat
      (exactPhaseState proposedTitles papers)
      (pySortDesc (scorePaper keyword) papers)).1).take
    (max 1 validationCandidates).toNat

theorem exactPhaseState_eq_foldl (titles : List String) (papers : List Paper)
    (st : List Paper × List String) :
    titles.foldl (fun st t =>
        if normalizeText t = "" then st
        else (pySortDesc (fun p => p.citationCount)
            (papers.filter fun p => normalizeText p.title = normalizeText t)).foldl
          addPaper st) st
      = (exactTitlePhase titles papers).foldl addPaper st := by
  induction titles generalizing st with
  | nil => simp [exactTitlePhase]
  | cons t ts ih =>
      by_cases h : normalizeText t = ""
      · rw [List.foldl_cons, if_pos h, ih]
        unfold exactTitlePhase
        rw [List.map_cons, List.flatten_cons, if_pos h, List.nil_append]
      · rw [List.foldl_cons, if_neg h, ih]
        unfold exactTitlePhase
        rw [List.map_cons, List.flatten_cons, if_neg h, List.foldl_append]

theorem rankedLoop_take (size : ℕ) (l : List Paper) (keep : List Paper)
    (seen : List String) :
    ((rankedLoop size (keep, seen) l).1).take size
      = (keep ++ dedupePoolFrom seen l).take size := by
  induction l generalizing keep seen with
  | nil => simp [rankedLoop, dedupePoolFrom]
  | cons p rest ih =>
      by_cases h : poolKey p = "" ∨ poolKey p ∈ seen
      · have hadd : addPaper (keep, seen) p = (keep, seen) := by
          unfold addPaper; rw [if_pos h]
        have hd : dedupePoolFrom seen (p :: rest) = dedupePoolFrom seen rest := by
          rw [dedupePoolFrom_cons, if_pos h]
        rw [hd]
        simp only [rankedLoop, hadd]
        by_cases hsz : size ≤ keep.length
        · rw [if_pos hsz]
          rw [List.take_append_of_le_length hsz]
        · rw [if_neg hsz]
          exact ih keep seen
      · have hadd : addPaper (keep, seen) p = (keep ++ [p], poolKey p :: seen) := by
          unfold addPaper; rw [if_neg h]
        have hd : dedupePoolFrom seen (p :: rest)
            = p :: dedupePoolFrom (poolKey p :: seen) rest := by
          rw [dedupePoolFrom_cons, if_neg h]
        rw [hd]
        simp only [rankedLoop, hadd]
        by_cases hsz : size ≤ (keep ++ [p]).length
        · rw [if_pos hsz]
          rw [show keep ++ p :: dedupePoolFrom (poolKey p :: seen) rest
              = (keep ++ [p]) ++ dedupePoolFrom (poolKey p :: seen) rest by simp]
          rw [List.take_append_of_le_length hsz]
        · rw [if_neg hsz]
          rw [show keep ++ p :: dedupePoolFrom (poolKey p :: seen) rest
              = (keep ++ [p]) ++ dedupePoolFrom (poolKey p :: seen) rest by simp]
          exact ih (keep ++ [p]) (poolKey p :: seen)

/-- C2 amended: the validation pool is the first `max(1, N)` entries of
the keyed first-occurrence filter (key: provider id if present and
nonempty, else `normalized_title::year` — *not* the bare normalised title
the claim states) applied to the exact-title phase (per proposed title,
exact normalised-title hits in stable descending citation order) followed
by the full candidate list in stable descending `score_paper` order; the
output length is at most `N`.  The two sorts are permutations, sorted
descending on their keys, and stable (ties keep input order). -/
theorem claim_C2_validation_pool_spec (keyword : String) (papers : List Paper)
    (n : ℤ) (titles : List String) (hn : 1 ≤ n) :
    buildValidationPool keyword papers n titles =
      (dedupePoolFrom [] (exactTitlePhase titles papers
          ++ pySortDesc (scorePaper keyword) papers)).take n.toNat ∧
    (buildValidationPool keyword papers n titles).length ≤ n.toNat ∧
    (∀ l : List Paper,
      (pySortDesc (fun p => p.citationCount) l).Perm l ∧
      List.Sorted (fun a b => b.citationCount ≤ a.citationCount)
        (pySortDesc (fun p => p.citationCount) l) ∧
      ∀ v : ℤ, (pySortDesc (fun p => p.citationCount) l).filter
            (fun x => decide (x.citationCount = v))
          = l.filter (fun x => decide (x.citationCount = v))) ∧
    (∀ l : List Paper,
      (pySortDesc (scorePaper keyword) l).Perm l ∧
      List.Sorted (fun a b => scorePaper keyword b ≤ scorePaper keyword a)
        (pySortDesc (scorePaper keyword) l)) := by
  have hmax : max 1 n = n := max_eq_right hn
  have hmain : buildValidationPool keyword papers n titles =
      (dedupePoolFrom [] (exactTitlePhase titles papers
          ++ pySortDesc (scorePaper keyword) papers)).take n.toNat := by
    unfold buildValidationPool
    rw [hmax]
    have hst1 : exactPhaseState titles papers
        = (dedupePoolFrom [] (exactTitlePhase titles papers),
           poolSeenAfter [] (exactTitlePhase titles papers)) := by
      unfold exactPhaseState
      rw [exactPhaseState_eq_foldl]
      rw [foldl_addPaper_spec]
      simp
    rw [hst1, rankedLoop_take, dedupePoolFrom_append]
  refine ⟨hmain, ?_, ?_, ?_⟩
  · rw [hmain]
    simp [List.length_take]
  · intro l
    exact ⟨pySortDesc_perm _ l, pySortDesc_sorted _ l, fun v => pySortDesc_stable _ l v⟩
  · intro l
    exact ⟨pySortDesc_perm _ l, pySortDesc_sorted _ l⟩

/-- Witness for the amended C2 theorem at a concrete call. -/
theorem claim_C2_validation_pool_spec_witness :
    (1 : ℤ) ≤ 3 ∧
    (buildValidationPool "resnet" [] 3 ["Deep Residual Learning"] =
        (dedupePoolFrom [] (exactTitlePhase ["Deep Residual Learning"] []
            ++ pySortDesc (scorePaper "resnet") [])).take (3 : ℤ).toNat ∧
      (buildValidationPool "resnet" [] 3 ["Deep Residual Learning"]).length ≤ (3 : ℤ).toNat ∧
      (∀ l : List Paper,
        (pySortDesc (fun p => p.citationCount) l).Perm l ∧
        List.Sorted (fun a b => b.citationCount ≤ a.citationCount)
          (pySortDesc (fun p => p.citationCount) l) ∧
        ∀ v : ℤ, (pySortDesc (fun p => p.citationCount) l).filter
              (fun x => decide (x.citationCount = v))
            = l.filter (fun x => decide (x.citationCount = v))) ∧
      (∀ l : List Paper,
        (pySortDesc (scorePaper "resnet") l).Perm l ∧
        List.Sorted (fun a b => scorePaper "resnet" b ≤ scorePaper "resnet" a)
          (pySortDesc (scorePaper "resnet") l))) :=
  ⟨by norm_num, claim_C2_validation_pool_spec "resnet" [] 3 ["Deep Residual Learning"]
    (by norm_num)⟩

/-- C2 counterexample: two records with the *same* normalised title and
year but different provider ids both enter the pool — the dedup key is the
provider id when present, not the normalised title as the claim states. -/
theorem claim_C2_counterexample :
    normalizeText (Paper.mk "x" "Same Title" 2020 "" "" "" "" "" "" "" "" "" 5 [] [] []).title
      = normalizeText (Paper.mk "y" "Same Title" 2020 "" "" "" "" "" "" "" "" "" 3 [] [] []).title ∧
    yearString (Paper.mk "x" "Same Title" 2020 "" "" "" "" "" "" "" "" "" 5 [] [] [])
      = yearString (Paper.mk "y" "Same Title" 2020 "" "" "" "" "" "" "" "" "" 3 [] [] []) ∧
    buildValidationPool "k"
        [Paper.mk "x" "Same Title" 2020 "" "" "" "" "" "" "" "" "" 5 [] [] [],
         Paper.mk "y" "Same Title" 2020 "" "" "" "" "" "" "" "" "" 3 [] [] []]
        2 ["Same Title"]
      = [Paper.mk "x" "Same Title" 2020 "" "" "" "" "" "" "" "" "" 5 [] [] [],
         Paper.mk "y" "Same Title" 2020 "" "" "" "" "" "" "" "" "" 3 [] [] []] := by
  refine ⟨by decide, by decide, ?_⟩
  unfold buildValidationPool
  have hst1 : exactPhaseState ["Same Title"]
      [Paper.mk "x" "Same Title" 2020 "" "" "" "" "" "" "" "" "" 5 [] [] [],
       Paper.mk "y" "Same Title" 2020 "" "" "" "" "" "" "" "" "" 3 [] [] []]
      = ([Paper.mk "x" "Same Title" 2020 "" "" "" "" "" "" "" "" "" 5 [] [] [],
          Paper.mk "y" "Same Title" 2020 "" "" "" "" "" "" "" "" "" 3 [] [] []],
         ["y", "x"]) := by decide
  rw [hst1]
  have hperm := pySortDesc_perm (scorePaper "k")
    [Paper.mk "x" "Same Title" 2020 "" "" "" "" "" "" "" "" "" 5 [] [] [],
     Paper.mk "y" "Same Title" 2020 "" "" "" "" "" "" "" "" "" 3 [] [] []]
  rcases hr : pySortDesc (scorePaper "k")
      [Paper.mk "x" "Same Title" 2020 "" "" "" "" "" "" "" "" "" 5 [] [] [],
       Paper.mk "y" "Same Title" 2020 "" "" "" "" "" "" "" "" "" 3 [] [] []] with _ | ⟨a, rest⟩
  · rw [hr] at hperm
    exact absurd hperm.length_eq (by simp)
  · rw [hr] at hperm
    have ha : a ∈ [Paper.mk "x" "Same Title" 2020 "" "" "" "" "" "" "" "" "" 5 [] [] [],
        Paper.mk "y" "Same Title" 2020 "" "" "" "" "" "" "" "" "" 3 [] [] []] :=
      hperm.mem_iff.1 (by simp)
    have hkey : poolKey a ∈ ["y", "x"] := by
      rcases List.mem_cons.1 ha with rfl | ha
      · decide
      · rcases List.mem_cons.1 ha with rfl | ha
        · decide
        · simp at ha
    have hadd : addPaper
        ([Paper.mk "x" "Same Title" 2020 "" "" "" "" "" "" "" "" "" 5 [] [] [],
          Paper.mk "y" "Same Title" 2020 "" "" "" "" "" "" "" "" "" 3 [] [] []],
         ["y", "x"]) a
        = ([Paper.mk "x" "Same Title" 2020 "" "" "" "" "" "" "" "" "" 5 [] [] [],
            Paper.mk "y" "Same Title" 2020 "" "" "" "" "" "" "" "" "" 3 [] [] []],
           ["y", "x"]) := by
      unfold addPaper
      rw [if_pos (Or.inr hkey)]
    simp only [rankedLoop, hadd]
    norm_num

/-! ## Claim C5: `_pick_best_backup_match` (cli.py:221-261) -/

/-- The candidate match score: +100 exact case-insensitive DOI match, +50
exact normalised-title match (else +20 one-way containment), +8 same known
year (else +3 within one year). -/
def backupScore (primary cand : Paper) : ℚ :=
  (match getDoi primary, getDoi cand with
   | some pd, some cd => if lowerStr pd = lowerStr cd then (100 : ℚ) else 0
   | _, _ => 0)
    + (if normalizeText primary.title ≠ "" ∧ normalizeText cand.title ≠ "" then
         (if normalizeText cand.title = normalizeText primary.title then (50 : ℚ)
          else if containsSub (normalizeText cand.title).data
                (normalizeText primary.title).data
              || containsSub (normalizeText primary.title).data
                (normalizeText cand.title).data then 20
          else 0)
       else 0)
    + (if primary.year ≠ 0 ∧ cand.year ≠ 0 then
         (if cand.year = primary.year then (8 : ℚ)
          else if |cand.year - primary.year| ≤ 1 then 3 else 0)
       else 0)

/-- The loop key `(score, citations, -candidate_year if candidate_year else 0)`. -/
def backupRankKey (primary cand : Paper) : ℚ × ℤ × ℤ :=
  (backupScore primary cand, cand.citationCount, if cand.year ≠ 0 then -cand.year else 0)

/-- `_pick_best_backup_match`: `none` on an empty candidate list, else the
lexicographically best candidate, rejected when its score is below 20. -/
def pickBestBackupMatch (primary : Paper) (cands : List Paper) : Option Paper :=
  match cands with
  | [] => none
  | c :: cs =>
      match bestLoop (backupRankKey primary) none (c :: cs) with
      | none => none
      | some b => if backupScore primary b < 20 then none else some b

/-- C5: on a nonempty candidate list, `_pick_best_backup_match` returns
`none` exactly when every candidate scores below 20; otherwise it returns
a best-scoring candidate (score at least 20, no candidate scores above
it). -/
theorem claim_C5_backup_match_threshold (primary c0 : Paper) (cs : List Paper) :
    ((∀ d ∈ c0 :: cs, backupScore primary d < 20) →
        pickBestBackupMatch primary (c0 :: cs) = none) ∧
    ((∃ d ∈ c0 :: cs, 20 ≤ backupScore primary d) →
        ∃ b ∈ c0 :: cs, pickBestBackupMatch primary (c0 :: cs) = some b ∧
          20 ≤ backupScore primary b ∧
          ∀ d ∈ c0 :: cs, backupScore primary d ≤ backupScore primary b) := by
  rcases bestLoop_spec (backupRankKey primary) cs c0 with ⟨l1, r, l2, heq, hrun, _, hall⟩
  have hmem : r ∈ c0 :: cs := by rw [heq]; simp
  have hrun2 : bestLoop (backupRankKey primary) none (c0 :: cs) = some r := by
    simpa [bestLoop] using hrun
  have hmax : ∀ d ∈ c0 :: cs, backupScore primary d ≤ backupScore primary r :=
    fun d hd => lexLe_fst (hall d hd)
  constructor
  · intro hlow
    have : backupScore primary r < 20 := hlow r hmem
    simp [pickBestBackupMatch, hrun2, this]
  · rintro ⟨d, hd, hscore⟩
    have h20 : 20 ≤ backupScore primary r := le_trans hscore (hmax d hd)
    refine ⟨r, hmem, ?_, h20, hmax⟩
    simp [pickBestBackupMatch, hrun2, not_lt.2 h20]

/-- Witness for C5: a candidate with an exact DOI match (score 100 ≥ 20)
is returned. -/
theorem claim_C5_backup_match_threshold_witness :
    ((∀ d ∈ [Paper.mk "x" "Some Paper" 2020 "" "" "" "" "" "" "" "" "" 5
          [("DOI", "10.1/abc")] [] []],
        backupScore (Paper.mk "" "Some Paper" 2020 "" "" "" "" "" "" "" "" "" 0
          [("DOI", "10.1/ABC")] [] []) d < 20) →
      pickBestBackupMatch
        (Paper.mk "" "Some Paper" 2020 "" "" "" "" "" "" "" "" "" 0
          [("DOI", "10.1/ABC")] [] [])
        [Paper.mk "x" "Some Paper" 2020 "" "" "" "" "" "" "" "" "" 5
          [("DOI", "10.1/abc")] [] []] = none) ∧
    ((∃ d ∈ [Paper.mk "x" "Some Paper" 2020 "" "" "" "" "" "" "" "" "" 5
          [("DOI", "10.1/abc")] [] []],
        20 ≤ backupScore (Paper.mk "" "Some Paper" 2020 "" "" "" "" "" "" "" "" "" 0
          [("DOI", "10.1/ABC")] [] []) d) →
      ∃ b ∈ [Paper.mk "x" "Some Paper" 2020 "" "" "" "" "" "" "" "" "" 5
          [("DOI", "10.1/abc")] [] []],
        pickBestBackupMatch
          (Paper.mk "" "Some Paper" 2020 "" "" "" "" "" "" "" "" "" 0
            [("DOI", "10.1/ABC")] [] [])
          [Paper.mk "x" "Some Paper" 2020 "" "" "" "" "" "" "" "" "" 5
            [("DOI", "10.1/abc")] [] []] = some b ∧
          20 ≤ backupScore (Paper.mk "" "Some Paper" 2020 "" "" "" "" "" "" "" "" "" 0
            [("DOI", "10.1/ABC")] [] []) b ∧
          ∀ d ∈ [Paper.mk "x" "Some Paper" 2020 "" "" "" "" "" "" "" "" "" 5
              [("DOI", "10.1/abc")] [] []],
            backupScore (Paper.mk "" "Some Paper" 2020 "" "" "" "" "" "" "" "" "" 0
              [("DOI", "10.1/ABC")] [] []) d ≤
              backupScore (Paper.mk "" "Some Paper" 2020 "" "" "" "" "" "" "" "" "" 0
                [("DOI", "10.1/ABC")] [] []) b) :=
  claim_C5_backup_match_threshold _ _ _

/-! ## Claim C6: `_merge_with_backup` (cli.py:264-313) -/

/-- The scalar fill of the loop cli.py:269-273: take the backup value only
when the current one is falsy-or-blank and the incoming one truthy. -/
def fillStr (cur inc : String) : String :=
  if pyStrip cur = "" ∧ inc ≠ "" then inc else cur

/-- `dict(base)` then `.update(overlay)`: overlay values win on collision,
base insertion order first. -/
def dictUpdate (base overlay : List (String × String)) : List (String × String) :=
  (base.map fun kv => (kv.1, (assocLookup overlay kv.1).getD kv.2))
    ++ overlay.filter fun kv => (assocLookup base kv.1).isNone

/-- One step of the PDF-URL union loop (cli.py:292-303): strip, keep only
nonempty `http…` values, deduplicate case-insensitively. -/
def addPdfUrl (st : List String × List String) (v : String) : List String × List String :=
  if pyStrip v = "" ∨ ¬ ("http".data.isPrefixOf (pyStrip v).data) then st
  else if lowerStr (pyStrip v) ∈ st.2 then st
  else (st.1 ++ [pyStrip v], lowerStr (pyStrip v) :: st.2)

def combinedPdfUrls (pu bu : List String) : List String :=
  ((pu ++ bu).foldl addPdfUrl ([], [])).1

/-- `_merge_with_backup` for an accepted (truthy) backup. -/
def mergeWithBackupCore (primary b : Paper) : Paper :=
  let pdfUrl1 := fillStr primary.pdfUrl b.pdfUrl
  let curType := upperStr (pyStrip primary.documentType)
  let incType := upperStr (pyStrip b.documentType)
  let combined := combinedPdfUrls primary.pdfUrls b.pdfUrls
  { paperId := primary.paperId
    title := fillStr primary.title b.title
    year := if primary.year = 0 ∧ b.year ≠ 0 then b.year else primary.year
    venue := fillStr primary.venue b.venue
    volume := fillStr primary.volume b.volume
    issue := fillStr primary.issue b.issue
    pages := fillStr primary.pages b.pages
    url := fillStr primary.url b.url
    rawType := fillStr primary.rawType b.rawType
    pdfUrl := if combined ≠ [] ∧ pdfUrl1 = "" then combined.headD "" else pdfUrl1
    openAccessPdf := fillStr primary.openAccessPdf b.openAccessPdf
    documentType :=
      if incType ≠ "" ∧ incType ≠ "Z" ∧ (curType = "" ∨ curType = "Z") then incType
      else primary.documentType
    citationCount := max primary.citationCount b.citationCount
    externalIds :=
      if primary.externalIds = [] ∧ b.externalIds = [] then primary.externalIds
      else dictUpdate b.externalIds primary.externalIds
    authors := if primary.authors = [] ∧ b.authors ≠ [] then b.authors else primary.authors
    pdfUrls := if combined ≠ [] then combined else primary.pdfUrls }

/-- `_merge_with_backup(primary, backup)`; `none` models a falsy backup. -/
def mergeWithBackup (primary : Paper) (backup : Option Paper) : Paper :=
  match backup with
  | none => primary
  | some b => mergeWithBackupCore primary b

/-- First-occurrence case-insensitive deduplication (the specification of
the PDF-URL union on well-formed inputs). -/
def ciDedupFrom (seen : List String) : List String → List String
  | [] => []
  | u :: rest =>
      if lowerStr u ∈ seen then ciDedupFrom seen rest
      else u :: ciDedupFrom (lowerStr u :: seen) rest

def ciSeenAfter (seen : List String) : List String → List String
  | [] => seen
  | u :: rest =>
      if lowerStr u ∈ seen then ciSeenAfter seen rest
      else ciSeenAfter (lowerStr u :: seen) rest

theorem ciDedupFrom_cons (seen : List String) (u : String) (rest : List String) :
    ciDedupFrom seen (u :: rest) =
      if lowerStr u ∈ seen then ciDedupFrom seen rest
      else u :: ciDedupFrom (lowerStr u :: seen) rest := rfl

theorem foldl_addPdfUrl_spec (l : List String) (keep seen : List String)
    (hl : ∀ u ∈ l, pyStrip u = u ∧ "http".data.isPrefixOf u.data = true) :
    l.foldl addPdfUrl (keep, seen) = (keep ++ ciDedupFrom seen l, ciSeenAfter seen l) := by
  induction l generalizing keep seen with
  | nil => simp [ciDedupFrom, ciSeenAfter]
  | cons u rest ih =>
      rcases hl u (by simp) with ⟨hstrip, hhttp⟩
      have hne : u ≠ "" := by
        intro he
        rw [he] at hhttp
        simp [List.isPrefixOf] at hhttp
      have hrest : ∀ v ∈ rest, pyStrip v = v ∧ "http".data.isPrefixOf v.data = true :=
        fun v hv => hl v (by simp [hv])
      rw [ciDedupFrom_cons,
        show ciSeenAfter seen (u :: rest) = if lowerStr u ∈ seen then ciSeenAfter seen rest
          else ciSeenAfter (lowerStr u :: seen) rest from rfl]
      by_cases hmem : lowerStr u ∈ seen
      · rw [List.foldl_cons, show addPdfUrl (keep, seen) u = (keep, seen) by
          unfold addPdfUrl
          rw [if_neg (by rw [hstrip]; simp [hne, hhttp]), if_pos (by rw [hstrip]; exact hmem)]]
        rw [ih keep seen hrest, if_pos hmem, if_pos hmem]
      · rw [List.foldl_cons, show addPdfUrl (keep, seen) u
            = (keep ++ [u], lowerStr u :: seen) by
          unfold addPdfUrl
          rw [if_neg (by rw [hstrip]; simp [hne, hhttp]), if_neg (by rw [hstrip]; exact hmem)]
          rw [hstrip]]
        rw [ih (keep ++ [u]) (lowerStr u :: seen) hrest, if_neg hmem, if_neg hmem]
        simp

theorem combinedPdfUrls_spec (pu bu : List String)
    (hp : ∀ u ∈ pu, pyStrip u = u ∧ "http".data.isPrefixOf u.data = true)
    (hb : ∀ u ∈ bu, pyStrip u = u ∧ "http".data.isPrefixOf u.data = true) :
    combinedPdfUrls pu bu = ciDedupFrom [] (pu ++ bu) := by
  unfold combinedPdfUrls
  rw [foldl_addPdfUrl_spec (pu ++ bu) [] []
    (fun u hu => (List.mem_append.1 hu).elim (hp u) (hb u))]
  simp

theorem assocLookup_append (l1 l2 : List (String × String)) (k : String) :
    assocLookup (l1 ++ l2) k =
      match assocLookup l1 k with
      | some v => some v
      | none => assocLookup l2 k := by
  induction l1 with
  | nil => simp [assocLookup]
  | cons kv rest ih =>
      simp only [List.cons_append, assocLookup]
      by_cases h : kv.1 = k
      · rw [if_pos h, if_pos h]
      · rw [if_neg h, if_neg h]
        exact ih

theorem assocLookup_mapPatch (base overlay : List (String × String)) (k : String) :
    assocLookup (base.map fun kv => (kv.1, (assocLookup overlay kv.1).getD kv.2)) k =
      match assocLookup base k with
      | some v => some ((assocLookup overlay k).getD v)
      | none => none := by
  induction base with
  | nil => simp [assocLookup]
  | cons kv rest ih =>
      simp only [List.map_cons, assocLookup]
      by_cases h : kv.1 = k
      · rw [if_pos h, if_pos h, h]
      · rw [if_neg h, if_neg h, ih]

theorem assocLookup_filter_of_base_none (base overlay : List (String × String))
    (k : String) (hk : assocLookup base k = none) :
    assocLookup (overlay.filter fun kv => (assocLookup base kv.1).isNone) k =
      assocLookup overlay k := by
  induction overlay with
  | nil => simp [assocLookup]
  | cons kv rest ih =>
      by_cases h : kv.1 = k
      · rw [List.filter_cons_of_pos (by simp [h, hk])]
        simp only [assocLookup]
        rw [if_pos h, if_pos h]
      · by_cases hkeep : (assocLookup base kv.1).isNone
        · rw [List.filter_cons_of_pos (by simpa using hkeep)]
          simp only [assocLookup]
          rw [if_neg h, if_neg h]
          exact ih
        · rw [List.filter_cons_of_neg (by simpa using hkeep)]
          rw [ih]
          simp only [assocLookup]
          rw [if_neg h]

theorem assocLookup_dictUpdate (base overlay : List (String × String)) (k : String) :
    assocLookup (dictUpdate base overlay) k =
      match assocLookup overlay k with
      | some v => some v
      | none => assocLookup base k := by
  unfold dictUpdate
  rw [assocLookup_append, assocLookup_mapPatch]
  rcases hbase : assocLookup base k with _ | v
  · rw [assocLookup_filter_of_base_none base overlay k hbase]
    rcases assocLookup overlay k with _ | w
    · rfl
    · rfl
  · rcases hov : assocLookup overlay k with _ | w
    · simp [hov]
    · simp [hov]

/-- C6: the frame of `_merge_with_backup` for an accepted backup.  Every
nonempty scalar field of the primary is preserved; empty scalars are
filled from the backup when the backup has a value; the document type is
overridden only when the primary type is empty or `Z` and the backup type
is a known non-`Z` type; external ids are unioned with primary values
winning; authors come from the backup only when the primary has none;
PDF-URL candidate lists are unioned with case-insensitive first-occurrence
deduplication, primary entries first (stated for well-formed URL lists:
trimmed entries starting with `http`, as the record invariant demands);
and the citation count is the maximum of the two. -/
theorem claim_C6_merge_with_backup_frame (p b : Paper)
    (hp : ∀ u ∈ p.pdfUrls, pyStrip u = u ∧ "http".data.isPrefixOf u.data = true)
    (hb : ∀ u ∈ b.pdfUrls, pyStrip u = u ∧ "http".data.isPrefixOf u.data = true) :
    (pyStrip p.title ≠ "" → (mergeWithBackup p (some b)).title = p.title) ∧
    (pyStrip p.title = "" ∧ b.title ≠ "" → (mergeWithBackup p (some b)).title = b.title) ∧
    (p.year ≠ 0 → (mergeWithBackup p (some b)).year = p.year) ∧
    (p.year = 0 ∧ b.year ≠ 0 → (mergeWithBackup p (some b)).year = b.year) ∧
    (pyStrip p.venue ≠ "" → (mergeWithBackup p (some b)).venue = p.venue) ∧
    (pyStrip p.venue = "" ∧ b.venue ≠ "" → (mergeWithBackup p (some b)).venue = b.venue) ∧
    (pyStrip p.volume ≠ "" → (mergeWithBackup p (some b)).volume = p.volume) ∧
    (pyStrip p.volume = "" ∧ b.volume ≠ "" → (mergeWithBackup p (some b)).volume = b.volume) ∧
    (pyStrip p.issue ≠ "" → (mergeWithBackup p (some b)).issue = p.issue) ∧
    (pyStrip p.issue = "" ∧ b.issue ≠ "" → (mergeWithBackup p (some b)).issue = b.issue) ∧
    (pyStrip p.pages ≠ "" → (mergeWithBackup p (some b)).pages = p.pages) ∧
    (pyStrip p.pages = "" ∧ b.pages ≠ "" → (mergeWithBackup p (some b)).pages = b.pages) ∧
    (pyStrip p.url ≠ "" → (mergeWithBackup p (some b)).url = p.url) ∧
    (pyStrip p.url = "" ∧ b.url ≠ "" → (mergeWithBackup p (some b)).url = b.url) ∧
    (pyStrip p.rawType ≠ "" → (mergeWithBackup p (some b)).rawType = p.rawType) ∧
    (pyStrip p.rawType = "" ∧ b.rawType ≠ "" →
      (mergeWithBackup p (some b)).rawType = b.rawType) ∧
    (pyStrip p.pdfUrl ≠ "" → (mergeWithBackup p (some b)).pdfUrl = p.pdfUrl) ∧
    (pyStrip p.pdfUrl = "" ∧ b.pdfUrl ≠ "" →
      (mergeWithBackup p (some b)).pdfUrl = b.pdfUrl) ∧
    (¬ (upperStr (pyStrip b.documentType) ≠ "" ∧ upperStr (pyStrip b.documentType) ≠ "Z" ∧
          (upperStr (pyStrip p.documentType) = "" ∨ upperStr (pyStrip p.documentType) = "Z")) →
      (mergeWithBackup p (some b)).documentType = p.documentType) ∧
    ((upperStr (pyStrip b.documentType) ≠ "" ∧ upperStr (pyStrip b.documentType) ≠ "Z" ∧
        (upperStr (pyStrip p.documentType) = "" ∨ upperStr (pyStrip p.documentType) = "Z")) →
      (mergeWithBackup p (some b)).documentType = upperStr (pyStrip b.documentType)) ∧
    (∀ k : String, assocLookup (mergeWithBackup p (some b)).externalIds k =
      match assocLookup p.externalIds k with
      | some v => some v
      | none => assocLookup b.externalIds k) ∧
    (p.authors ≠ [] → (mergeWithBackup p (some b)).authors = p.authors) ∧
    (p.authors = [] ∧ b.authors ≠ [] → (mergeWithBackup p (some b)).authors = b.authors) ∧
    (mergeWithBackup p (some b)).pdfUrls = ciDedupFrom [] (p.pdfUrls ++ b.pdfUrls) ∧
    (mergeWithBackup p (some b)).citationCount = max p.citationCount b.citationCount := by
  have hcomb : combinedPdfUrls p.pdfUrls b.pdfUrls = ciDedupFrom [] (p.pdfUrls ++ b.pdfUrls) :=
    combinedPdfUrls_spec _ _ hp hb
  refine ⟨?_, ?_, ?_, ?_, ?_, ?_, ?_, ?_, ?_, ?_, ?_, ?_, ?_, ?_, ?_, ?_, ?_, ?_,
    ?_, ?_, ?_, ?_, ?_, ?_, ?_⟩
  · intro h; simp [mergeWithBackup, mergeWithBackupCore, fillStr, h]
  · rintro ⟨h1, h2⟩; simp [mergeWithBackup, mergeWithBackupCore, fillStr, h1, h2]
  · intro h; simp [mergeWithBackup, mergeWithBackupCore, h]
  · rintro ⟨h1, h2⟩; simp [mergeWithBackup, mergeWithBackupCore, h1, h2]
  · intro h; simp [mergeWithBackup, mergeWithBackupCore, fillStr, h]
  · rintro ⟨h1, h2⟩; simp [mergeWithBackup, mergeWithBackupCore, fillStr, h1, h2]
  · intro h; simp [mergeWithBackup, mergeWithBackupCore, fillStr, h]
  · rintro ⟨h1, h2⟩; simp [mergeWithBackup, mergeWithBackupCore, fillStr, h1, h2]
  · intro h; simp [mergeWithBackup, mergeWithBackupCore, fillStr, h]
  · rintro ⟨h1, h2⟩; simp [mergeWithBackup, mergeWithBackupCore, fillStr, h1, h2]
  · intro h; simp [mergeWithBackup, mergeWithBackupCore, fillStr, h]
  · rintro ⟨h1, h2⟩; simp [mergeWithBackup, mergeWithBackupCore, fillStr, h1, h2]
  · intro h; simp [mergeWithBackup, mergeWithBackupCore, fillStr, h]
  · rintro ⟨h1, h2⟩; simp [mergeWithBackup, mergeWithBackupCore, fillStr, h1, h2]
  · intro h; simp [mergeWithBackup, mergeWithBackupCore, fillStr, h]
  · rintro ⟨h1, h2⟩; simp [mergeWithBackup, mergeWithBackupCore, fillStr, h1, h2]
  · intro h
    have h2 : fillStr p.pdfUrl b.pdfUrl = p.pdfUrl := by simp [fillStr, h]
    have h3 : p.pdfUrl ≠ "" := by
      intro he; rw [he] at h; exact h (by decide)
    simp [mergeWithBackup, mergeWithBackupCore, h2, h3]
  · rintro ⟨h1, h2⟩
    have h3 : fillStr p.pdfUrl b.pdfUrl = b.pdfUrl := by simp [fillStr, h1, h2]
    simp [mergeWithBackup, mergeWithBackupCore, h3, h2]
  · intro h; simp only [mergeWithBackup, mergeWithBackupCore]; rw [if_neg h]
  · intro h; simp only [mergeWithBackup, mergeWithBackupCore]; rw [if_pos h]
  · intro k
    simp only [mergeWithBackup, mergeWithBackupCore]
    by_cases h : p.externalIds = [] ∧ b.externalIds = []
    · rw [if_pos h]
      rcases h with ⟨h1, h2⟩
      rw [h1, h2]
      simp [assocLookup]
    · rw [if_neg h]
      exact assocLookup_dictUpdate b.externalIds p.externalIds k
  · intro h; simp [mergeWithBackup, mergeWithBackupCore, h]
  · rintro ⟨h1, h2⟩; simp [mergeWithBackup, mergeWithBackupCore, h1, h2]
  · simp only [mergeWithBackup, mergeWithBackupCore]
    by_cases h : combinedPdfUrls p.pdfUrls b.pdfUrls = []
    · rw [if_neg (by simp [h])]
      rw [hcomb] at h
      have hnil : p.pdfUrls ++ b.pdfUrls = [] := by
        by_contra hne
        rcases List.exists_cons_of_ne_nil hne with ⟨u, rest, hu⟩
        rw [hu, ciDedupFrom_cons, if_neg (by simp)] at h
        exact absurd h (by simp)
      rcases List.append_eq_nil.1 hnil with ⟨hp1, hb1⟩
      rw [hp1, hb1]
      rfl
    · rw [if_pos h, hcomb]
  · simp [mergeWithBackup, mergeWithBackupCore]

/-- Witness for C6 at a concrete pair of records (empty PDF lists, so the
well-formedness hypotheses hold vacuously). -/
theorem claim_C6_merge_with_backup_frame_witness :
    (pyStrip (Paper.mk "p1" "Kept Title" 1998 "" "" "" "" "" "" "" "" "" 7
        [("DOI", "10.5/x")] ["Ann Author"] []).title ≠ "" →
      (mergeWithBackup
          (Paper.mk "p1" "Kept Title" 1998 "" "" "" "" "" "" "" "" "" 7
            [("DOI", "10.5/x")] ["Ann Author"] [])
          (some (Paper.mk "b1" "Other Title" 2001 "VLDB" "12" "3" "1-10" "http://u" "article"
            "" "" "J" 9 [("ArXiv", "1234.5")] [] []))).title
        = (Paper.mk "p1" "Kept Title" 1998 "" "" "" "" "" "" "" "" "" 7
            [("DOI", "10.5/x")] ["Ann Author"] []).title) ∧
    (mergeWithBackup
        (Paper.mk "p1" "Kept Title" 1998 "" "" "" "" "" "" "" "" "" 7
          [("DOI", "10.5/x")] ["Ann Author"] [])
        (some (Paper.mk "b1" "Other Title" 2001 "VLDB" "12" "3" "1-10" "http://u" "article"
          "" "" "J" 9 [("ArXiv", "1234.5")] [] []))).citationCount
      = max (7 : ℤ) 9 := by
  have h := claim_C6_merge_with_backup_frame
    (Paper.mk "p1" "Kept Title" 1998 "" "" "" "" "" "" "" "" "" 7
      [("DOI", "10.5/x")] ["Ann Author"] [])
    (Paper.mk "b1" "Other Title" 2001 "VLDB" "12" "3" "1-10" "http://u" "article"
      "" "" "J" 9 [("ArXiv", "1234.5")] [] [])
    (by simp) (by simp)
  exact ⟨fun hne => h.1 hne, by
    have := h.2.2.2.2.2.2.2.2.2.2.2.2.2.2.2.2.2.2.2.2.2.2.2.2
    simpa using this⟩

/-! ## Claims C8 and C10: the LLM title proposer (title_llm.py)

The JSON data a response carries is modelled by `PyJson`.  The Python
`json` standard library (`json.loads`, `JSONDecoder.raw_decode`) is an
external collaborator, not repository code: the two decoding primitives
are passed to the pipeline as explicit function arguments
(`loads`, `rawDecode`), and every theorem quantifies over them — the
claims under verification are about the repository's routing, validation
and salvage logic, which is independent of the decoder's internals. -/

inductive PyJson where
  | null : PyJson
  | bool (b : Bool) : PyJson
  | num (q : ℚ) : PyJson
  | str (s : String) : PyJson
  | arr (items : List PyJson) : PyJson
  | obj (fields : List (String × PyJson)) : PyJson

structure TitleProposal where
  titles : List String
  reason : String
  confidence : ℚ
  deriving DecidableEq

/-- Python truthiness of a JSON value. -/
def pyTruthy : PyJson → Bool
  | .null => false
  | .bool b => b
  | .num q => q ≠ 0
  | .str s => s ≠ ""
  | .arr l => !l.isEmpty
  | .obj f => !f.isEmpty

/-- Python `str()` of a JSON value: exact for strings, booleans and
`None`; numbers and containers get an approximate rendering (no verified
code path feeds them through `str`, the pipeline only ever stringifies
strings and falsy values here). -/
def strOfJson : PyJson → String
  | .str s => s
  | .bool b => if b then "True" else "False"
  | .null => "None"
  | .num q => toString q
  | .arr _ => "<list>"
  | .obj _ => "<dict>"

/-- `value or ""`. -/
def pyOrEmptyStr (j : PyJson) : PyJson := if pyTruthy j then j else .str ""

/-- `dict.get(k)`, with `.null` for a missing key (Python returns `None`,
indistinguishable from an explicit `null` value at every use site). -/
def dictGetJ : List (String × PyJson) → String → PyJson
  | [], _ => .null
  | kv :: rest, k => if kv.1 = k then kv.2 else dictGetJ rest k

/-- `k in dict` (key membership, distinct from `get`). -/
def hasKeyJ : List (String × PyJson) → String → Bool
  | [], _ => false
  | kv :: rest, k => if kv.1 = k then true else hasKeyJ rest k

def digitsVal (l : List Char) : ℕ :=
  l.foldl (fun acc c => acc * 10 + (c.toNat - '0'.toNat)) 0

/-- Python `float(string)` on plain decimal literals (optional sign,
`digits`, `digits.digits`, `.digits`, `digits.`); exponent/infinity
spellings are not modelled — no verified path produces them. -/
def parseFloatQ (s : String) : Option ℚ :=
  let l := stripList isPyWs s.data
  let sign : ℚ := match l with | '-' :: _ => -1 | _ => 1
  let l2 := match l with
    | '-' :: r => r
    | '+' :: r => r
    | r => r
  let intPart := l2.takeWhile Char.isDigit
  let rest2 := l2.dropWhile Char.isDigit
  match rest2 with
  | [] => if intPart = [] then none else some (sign * digitsVal intPart)
  | '.' :: frac =>
      if frac.all Char.isDigit ∧ (intPart ≠ [] ∨ frac ≠ []) then
        some (sign * ((digitsVal intPart : ℚ) + (digitsVal frac : ℚ) / (10 ^ frac.length)))
      else none
  | _ => none

/-- `float(confidence_raw)`: numbers pass through, booleans become 0/1,
numeric strings are parsed, anything else is a `TypeError` (`none`). -/
def floatOfJson : PyJson → Option ℚ
  | .num q => some q
  | .bool b => some (if b then 1 else 0)
  | .str s => parseFloatQ s
  | _ => none

/-- `_normalize_titles` inner loop (title_llm.py:139-150): stringify,
strip, skip empties, collapse whitespace, deduplicate case-insensitively,
keep first occurrences. -/
def collectTitles : List PyJson → List String → List String → List String
  | [], _, acc => acc
  | item :: rest, seen, acc =>
      let text := pyStrip (strOfJson (pyOrEmptyStr item))
      if text = "" then collectTitles rest seen acc
      else
        let normalized := squeezeWs text
        if lowerStr normalized ∈ seen then collectTitles rest seen acc
        else collectTitles rest (lowerStr normalized :: seen) (acc ++ [normalized])

/-- `_normalize_titles` (title_llm.py:136-153). -/
def normalizeTitlesJ (v : PyJson) : Except String (List String) :=
  match v with
  | .arr items =>
      let titles := collectTitles items [] []
      if titles = [] then .error "LLM returned empty titles list."
      else .ok (titles.take 3)
  | _ => .error "LLM titles must be a JSON array."

/-- `_validate_payload` (title_llm.py:221-235). -/
def validatePayloadJ (payload : List (String × PyJson)) : Except String TitleProposal :=
  match normalizeTitlesJ (dictGetJ payload "titles") with
  | .error e => .error e
  | .ok titles =>
      let reason := pyStrip (strOfJson (pyOrEmptyStr (dictGetJ payload "reason")))
      if reason = "" then .error "LLM reason is empty."
      else
        match floatOfJson (dictGetJ payload "confidence") with
        | none => .error "LLM confidence is missing or invalid."
        | some confidence =>
            if confidence < 0 ∨ 1 < confidence then
              .error "LLM confidence must be in [0, 1]."
            else .ok ⟨titles, reason, confidence⟩

/-- Reasoning-content leg of `_extract_content` (title_llm.py:96-101). -/
def contentReasoningLeg (msg : List (String × PyJson)) : Except String String :=
  match dictGetJ msg "reasoning_content" with
  | .str r =>
      if pyStrip r ≠ "" then .ok (pyStrip r)
      else .error "LLM response content is empty."
  | _ => .error "LLM response content is empty."

/-- `_extract_content` (title_llm.py:82-101). -/
def extractContent (resp : List (String × PyJson)) : Except String String :=
  match dictGetJ resp "choices" with
  | .arr (first :: _) =>
      let firstObj := match first with | .obj f => f | _ => []
      match dictGetJ firstObj "message" with
      | .obj msg =>
          (match dictGetJ msg "content" with
           | .str s => if pyStrip s ≠ "" then .ok (pyStrip s) else contentReasoningLeg msg
           | _ => contentReasoningLeg msg)
      | _ => .error "LLM response choice has no message."
  | _ => .error "LLM response has no choices."

/-- `_extract_reasoning_text` (title_llm.py:195-204). -/
def extractReasoningText (resp : List (String × PyJson)) : String :=
  match dictGetJ resp "choices" with
  | .arr (first :: _) =>
      let firstObj := match first with | .obj f => f | _ => []
      match dictGetJ firstObj "message" with
      | .obj msg =>
          (match dictGetJ msg "reasoning_content" with
           | .str r => pyStrip r
           | _ => "")
      | _ => ""
  | _ => ""

/-- The suffixes of the text starting at each `'{'` (the brace scan of
`_extract_json`, title_llm.py:117-125). -/
def suffixesAtBrace : List Char → List (List Char)
  | [] => []
  | c :: rest =>
      if c = '\x7b' then (c :: rest) :: suffixesAtBrace rest
      else suffixesAtBrace rest

/-- Dict results of `raw_decode` at each brace position. -/
def braceCandidates (rawDecode : String → Option PyJson) (text : String) :
    List (List (String × PyJson)) :=
  (suffixesAtBrace text.data).filterMap fun suf =>
    match rawDecode ⟨suf⟩ with
    | some (.obj f) => some f
    | _ => none

/-- `_extract_json` (title_llm.py:104-133): strict parse first, else scan
for brace-started objects, preferring one with a `"titles"` key. -/
def extractJson (loads rawDecode : String → Option PyJson) (rawText : String) :
    Except String (List (String × PyJson)) :=
  let text := pyStrip rawText
  if text = "" then .error "LLM returned empty text."
  else
    match loads text with
    | some (.obj f) => .ok f
    | _ =>
        match braceCandidates rawDecode text with
        | [] => .error "LLM text does not contain JSON object."
        | c :: cs => .ok (((c :: cs).find? fun f => hasKeyJ f "titles").getD c)

/-- `_looks_like_paper_title` (title_llm.py:156-172). -/
def bannedNoise : List String :=
  ["keyword", "output format", "schema", "constraints", "json", "confidence", "reason"]

def looksLikePaperTitle (text : String) : Bool :=
  let candidate := pyStrip (squeezeWs text)
  if candidate.length < 12 || 240 < candidate.length then false
  else if (wsTokens candidate).length < 3 then false
  else !(bannedNoise.any fun t => containsSub (lowerStr candidate).data t.data)

/-- Split on a quote character, keeping empty segments (`str.split`). -/
def splitOnChar (q : Char) : List Char → List (List Char)
  | [] => [[]]
  | c :: rest =>
      match splitOnChar q rest with
      | [] => if c = q then [[], []] else [[c]]
      | t :: ts => if c = q then [] :: t :: ts else (c :: t) :: ts

/-- `re.findall(r"Q([^Q]{6,260})Q", text)` for a quote character `Q`, on
the segment list: a pair of adjacent quotes whose gap is 6–260 characters
is a match and consumes both quotes; otherwise the scan advances to the
next quote.  (The character class excludes the quote, so a match can
never span a third quote, and greedy matching with backtracking reduces
to this gap test.) -/
def quotedRuns : List (List Char) → List (List Char)
  | _ :: s1 :: rest =>
      if 6 ≤ s1.length ∧ s1.length ≤ 260 then s1 :: quotedRuns rest
      else quotedRuns (s1 :: rest)
  | _ => []

def quotedSpans (q : Char) (text : List Char) : List (List Char) :=
  quotedRuns (splitOnChar q text)

/-- One attempt of `(?i)titled\s+([A-Z][^.:\n]{8,260})` anchored at the
current position: case-insensitive `titled`, at least one whitespace, a
letter, then greedily up to 260 characters outside `.`/`:`/newline with a
minimum of 8.  Returns the capture and the remainder after the match. -/
def titledCapture (s : List Char) : Option (List Char × List Char) :=
  if "titled".data.isPrefixOf (s.map Char.toLower) then
    let rest1 := s.drop 6
    let nws := (rest1.takeWhile isPyWs).length
    if nws = 0 then none
    else
      match rest1.drop nws with
      | c :: body =>
          if c.isAlpha then
            let run := (body.takeWhile fun d => !(d = '.' || d = ':' || d = '\n')).take 260
            if 8 ≤ run.length then some (c :: run, body.drop run.length)
            else none
          else none
      | [] => none
  else none

theorem titledCapture_after_lt (s cap after : List Char)
    (h : titledCapture s = some (cap, after)) : after.length < s.length := by
  unfold titledCapture at h
  split at h
  · dsimp only [] at h
    split at h
    · exact absurd h (by simp)
    · split at h
      · rename_i c body heq
        split at h
        · split at h
          · simp only [Option.some.injEq, Prod.mk.injEq] at h
            have hafter : after = body.drop
                ((body.takeWhile fun d => !(d = '.' || d = ':' || d = '\n')).take 260).length := by
              rw [← h.2]
            have h1 : (s.drop 6).drop ((s.drop 6).takeWhile isPyWs).length
                = c :: body := heq
            have h2 : body.length + 1 ≤ s.length := by
              have := congrArg List.length h1
              simp only [List.length_drop, List.length_cons] at this
              omega
            have h3 : after.length ≤ body.length := by
              rw [hafter]
              simp [List.length_drop]
            omega
          · exact absurd h (by simp)
        · exact absurd h (by simp)
      · exact absurd h (by simp)
  · exact absurd h (by simp)

/-- The `titled …` scan with explicit fuel (each step of the Python scan
consumes at least one character, so `s.length` steps suffice; the fuel
keeps the definition structurally recursive and evaluable). -/
def titledScanFuel : ℕ → List Char → List (List Char)
  | 0, _ => []
  | _, [] => []
  | fuel + 1, c :: rest =>
      match titledCapture (c :: rest) with
      | some (cap, after) => cap :: titledScanFuel fuel after
      | none => titledScanFuel fuel rest

def titledScan (s : List Char) : List (List Char) := titledScanFuel s.length s

/-- The candidate spans of `_extract_titles_from_text_fallback`
(title_llm.py:176-179): double-quoted, then single-quoted, then
`titled …` captures. -/
def fallbackCandidates (text : String) : List (List Char) :=
  quotedSpans '\x22' text.data ++ quotedSpans (Char.ofNat 39) text.data
    ++ titledScan text.data

/-- `re.sub(r"\s+", " ", item).strip(" .,:;")` (title_llm.py:184). -/
def cleanSpan (item : List Char) : String :=
  pyStripSet " .,:;".data (squeezeWs ⟨item⟩)

/-- The collection loop of `_extract_titles_from_text_fallback`
(title_llm.py:181-192). -/
def collectFallbackTitles : List (List Char) → List String → List String → List String
  | [], _, acc => acc
  | item :: rest, seen, acc =>
      if looksLikePaperTitle (cleanSpan item) = false then
        collectFallbackTitles rest seen acc
      else if lowerStr (cleanSpan item) ∈ seen then collectFallbackTitles rest seen acc
      else collectFallbackTitles rest (lowerStr (cleanSpan item) :: seen)
        (acc ++ [cleanSpan item])

def extractTitlesFromTextFallback (text : String) : List String :=
  (collectFallbackTitles (fallbackCandidates text) [] []).take 3

def truncationReason : String :=
  "LLM JSON output was truncated; extracted candidate titles from reasoning content."

/-- `_fallback_proposal_from_reasoning` (title_llm.py:207-218). -/
def fallbackProposalFromReasoning (resp : List (String × PyJson)) : Option TitleProposal :=
  let reasoning := extractReasoningText resp
  if reasoning = "" then none
  else
    let titles := extractTitlesFromTextFallback reasoning
    if titles = [] then none
    else some ⟨titles, truncationReason, 35 / 100⟩

/-- The `try` body of `propose_titles` (title_llm.py:333-336): extract the
content, extract a JSON object from it, validate. -/
def proposePrimary (loads rawDecode : String → Option PyJson)
    (resp : List (String × PyJson)) : Except String TitleProposal :=
  match extractContent resp with
  | .error e => .error e
  | .ok content =>
      match extractJson loads rawDecode content with
      | .error e => .error e
      | .ok payload => validatePayloadJ payload

/-- `propose_titles` from the decoded response on (title_llm.py:333-342):
on any `LLMTitleError` from the primary path, attempt the reasoning
salvage; re-raise the original error if it yields nothing. -/
def proposeFromResponse (loads rawDecode : String → Option PyJson)
    (resp : List (String × PyJson)) : Except String TitleProposal :=
  match proposePrimary loads rawDecode resp with
  | .ok tp => .ok tp
  | .error e =>
      match fallbackProposalFromReasoning resp with
      | some fp => .ok fp
      | none => .error e

/-! ### Properties of the fallback collection loop -/

theorem collectFallbackTitles_length_le (cands : List (List Char))
    (seen acc : List String) :
    acc.length ≤ (collectFallbackTitles cands seen acc).length := by
  induction cands generalizing seen acc with
  | nil => simp [collectFallbackTitles]
  | cons item rest ih =>
      unfold collectFallbackTitles
      split
      · exact ih seen acc
      · split
        · exact ih seen acc
        · calc acc.length ≤ (acc ++ [cleanSpan item]).length := by simp
            _ ≤ _ := ih _ _

theorem collectFallbackTitles_ne_nil (cands : List (List Char))
    (hex : ∃ s ∈ cands, looksLikePaperTitle (cleanSpan s) = true) :
    collectFallbackTitles cands [] [] ≠ [] := by
  induction cands with
  | nil => simp at hex
  | cons item rest ih =>
      unfold collectFallbackTitles
      split
      · rename_i hbad
        apply ih
        rcases hex with ⟨s, hs, hgood⟩
        rcases List.mem_cons.1 hs with rfl | hs
        · rw [hgood] at hbad; exact absurd hbad (by simp)
        · exact ⟨s, hs, hgood⟩
      · split
        · rename_i hmem
          exact absurd hmem (by simp)
        · intro hnil
          have := collectFallbackTitles_length_le rest
            [lowerStr (cleanSpan item)] ([] ++ [cleanSpan item])
          rw [hnil] at this
          simp at this

theorem collectFallbackTitles_all (cands : List (List Char)) (seen acc : List String)
    (hacc : ∀ x ∈ acc, looksLikePaperTitle x = true) :
    ∀ x ∈ collectFallbackTitles cands seen acc, looksLikePaperTitle x = true := by
  induction cands generalizing seen acc with
  | nil => simpa [collectFallbackTitles] using hacc
  | cons item rest ih =>
      unfold collectFallbackTitles
      split
      · exact ih seen acc hacc
      · split
        · exact ih seen acc hacc
        · rename_i hgood _
          refine ih _ _ ?_
          intro x hx
          rcases List.mem_append.1 hx with hx | hx
          · exact hacc x hx
          · simp at hx
            subst hx
            cases h : looksLikePaperTitle (cleanSpan item)
            · exact absurd h hgood
            · rfl

theorem collectFallbackTitles_pairwise (cands : List (List Char)) (seen acc : List String)
    (hacc : acc.Pairwise fun a b => lowerStr a ≠ lowerStr b)
    (hsub : ∀ x ∈ acc, lowerStr x ∈ seen) :
    (collectFallbackTitles cands seen acc).Pairwise
      fun a b => lowerStr a ≠ lowerStr b := by
  induction cands generalizing seen acc with
  | nil => simpa [collectFallbackTitles] using hacc
  | cons item rest ih =>
      unfold collectFallbackTitles
      split
      · exact ih seen acc hacc hsub
      · split
        · exact ih seen acc hacc hsub
        · rename_i hnew
          refine ih _ _ ?_ ?_
          · rw [List.pairwise_append]
            refine ⟨hacc, by simp, ?_⟩
            intro a ha b hb
            simp at hb
            subst hb
            intro he
            exact hnew (he ▸ hsub a ha)
          · intro x hx
            rcases List.mem_append.1 hx with hx | hx
            · exact List.mem_cons_of_mem _ (hsub x hx)
            · simp at hx
              subst hx
              simp

/-- C8: whenever the primary content path of `propose_titles` fails with
an `LLMTitleError` but the reasoning text contains at least one candidate
span (quoted or `titled …`) that passes the title filter (12–240 chars,
≥ 3 words, no schema-noise token), the call does not raise: it returns
the salvaged proposal — up to 3 spans, case-insensitively deduplicated in
discovery order, each passing the filter, with confidence exactly 0.35
and the truncation-recovery reason.  When no span survives, the original
error is re-raised. -/
theorem claim_C8_title_salvage (loads rawDecode : String → Option PyJson)
    (resp : List (String × PyJson)) (e : String)
    (hfail : proposePrimary loads rawDecode resp = .error e) :
    ((∃ s ∈ fallbackCandidates (extractReasoningText resp),
        looksLikePaperTitle (cleanSpan s) = true) →
      proposeFromResponse loads rawDecode resp =
        .ok ⟨extractTitlesFromTextFallback (extractReasoningText resp),
             truncationReason, 35 / 100⟩ ∧
      extractTitlesFromTextFallback (extractReasoningText resp) ≠ [] ∧
      (extractTitlesFromTextFallback (extractReasoningText resp)).length ≤ 3 ∧
      (∀ t ∈ extractTitlesFromTextFallback (extractReasoningText resp),
        looksLikePaperTitle t = true) ∧
      (extractTitlesFromTextFallback (extractReasoningText resp)).Pairwise
        (fun a b => lowerStr a ≠ lowerStr b)) ∧
    (extractTitlesFromTextFallback (extractReasoningText resp) = [] →
      proposeFromResponse loads rawDecode resp = .error e) := by
  constructor
  · intro hex
    have hne0 : extractReasoningText resp ≠ "" := by
      intro he
      rw [he] at hex
      rcases hex with ⟨s, hs, -⟩
      have hfc : fallbackCandidates "" = [] := rfl
      rw [hfc] at hs
      exact absurd hs (by simp)
    have hcoll : collectFallbackTitles
        (fallbackCandidates (extractReasoningText resp)) [] [] ≠ [] :=
      collectFallbackTitles_ne_nil _ hex
    have hne : extractTitlesFromTextFallback (extractReasoningText resp) ≠ [] := by
      unfold extractTitlesFromTextFallback
      simp [List.take_eq_nil_iff, hcoll]
    have hfb : fallbackProposalFromReasoning resp
        = some ⟨extractTitlesFromTextFallback (extractReasoningText resp),
                truncationReason, 35 / 100⟩ := by
      unfold fallbackProposalFromReasoning
      rw [if_neg hne0, if_neg hne]
    refine ⟨?_, hne, ?_, ?_, ?_⟩
    · unfold proposeFromResponse
      rw [hfail, hfb]
    · unfold extractTitlesFromTextFallback
      simp [List.length_take]
    · intro t ht
      exact collectFallbackTitles_all _ [] [] (by simp) t
        (List.mem_of_mem_take ht)
    · exact List.Pairwise.take
        (collectFallbackTitles_pairwise _ [] [] (by simp) (by simp))
  · intro hnil
    have hfb : fallbackProposalFromReasoning resp = none := by
      unfold fallbackProposalFromReasoning
      by_cases h0 : extractReasoningText resp = ""
      · rw [if_pos h0]
      · rw [if_neg h0, if_pos hnil]
    unfold proposeFromResponse
    rw [hfail, hfb]

/-- Witness for C8 on the spec's flagship example: empty primary content,
reasoning text `… titled "Attention Is All You Need" …`, and a JSON
decoder that fails everywhere — the salvage yields exactly
`["Attention Is All You Need"]` at confidence 0.35. -/
theorem claim_C8_title_salvage_witness :
    (proposePrimary (fun _ => none) (fun _ => none)
        [("choices", PyJson.arr [PyJson.obj [("message", PyJson.obj
          [("content", PyJson.str ""),
           ("reasoning_content", PyJson.str
             "The seminal paper is titled \"Attention Is All You Need\" by Vaswani and colleagues")])]])]
      = Except.error "LLM text does not contain JSON object.") ∧
    proposeFromResponse (fun _ => none) (fun _ => none)
        [("choices", PyJson.arr [PyJson.obj [("message", PyJson.obj
          [("content", PyJson.str ""),
           ("reasoning_content", PyJson.str
             "The seminal paper is titled \"Attention Is All You Need\" by Vaswani and colleagues")])]])]
      = Except.ok ⟨["Attention Is All You Need"], truncationReason, 35 / 100⟩ := by
  have h := claim_C8_title_salvage (fun _ => none) (fun _ => none)
    [("choices", PyJson.arr [PyJson.obj [("message", PyJson.obj
      [("content", PyJson.str ""),
       ("reasoning_content", PyJson.str
         "The seminal paper is titled \"Attention Is All You Need\" by Vaswani and colleagues")])]])]
    "LLM text does not contain JSON object." (by rfl)
  refine ⟨by rfl, ?_⟩
  have h2 := (h.1 ⟨"Attention Is All You Need".data, by decide, by decide⟩).1
  rw [h2]
  rfl

/-- C10: when the message `content` is blank but `reasoning_content` is a
nonempty string, `_extract_content` returns the stripped reasoning text as
the primary content; if that text then yields a JSON object that
validates, `propose_titles` returns the validated proposal itself — with
the payload's own reason and confidence, not the 0.35 salvage
annotation. -/
theorem claim_C10_reasoning_as_content (c r : String)
    (hc : pyStrip c = "") (hr : pyStrip r ≠ "") :
    extractContent [("choices", PyJson.arr [PyJson.obj [("message",
        PyJson.obj [("content", PyJson.str c), ("reasoning_content", PyJson.str r)])]])]
      = .ok (pyStrip r) ∧
    ∀ (loads rawDecode : String → Option PyJson) (payload : List (String × PyJson))
      (tp : TitleProposal),
      extractJson loads rawDecode (pyStrip r) = .ok payload →
      validatePayloadJ payload = .ok tp →
      proposeFromResponse loads rawDecode [("choices", PyJson.arr [PyJson.obj [("message",
          PyJson.obj [("content", PyJson.str c), ("reasoning_content", PyJson.str r)])]])]
        = .ok tp ∧
      tp.reason = pyStrip (strOfJson (pyOrEmptyStr (dictGetJ payload "reason"))) ∧
      floatOfJson (dictGetJ payload "confidence") = some tp.confidence := by
  have hec : extractContent [("choices", PyJson.arr [PyJson.obj [("message",
      PyJson.obj [("content", PyJson.str c), ("reasoning_content", PyJson.str r)])]])]
      = .ok (pyStrip r) := by
    simp [extractContent, contentReasoningLeg, dictGetJ, hc, hr]
  refine ⟨hec, ?_⟩
  intro loads rawDecode payload tp hej hvp
  have hprops : tp.reason = pyStrip (strOfJson (pyOrEmptyStr (dictGetJ payload "reason"))) ∧
      floatOfJson (dictGetJ payload "confidence") = some tp.confidence := by
    unfold validatePayloadJ at hvp
    split at hvp
    · exact absurd hvp (by simp)
    · dsimp only [] at hvp
      split at hvp
      · exact absurd hvp (by simp)
      · split at hvp
        · exact absurd hvp (by simp)
        · rename_i conf heq
          split at hvp
          · exact absurd hvp (by simp)
          · simp only [Except.ok.injEq] at hvp
            subst hvp
            exact ⟨rfl, heq⟩
  have hpp : proposePrimary loads rawDecode [("choices", PyJson.arr [PyJson.obj [("message",
      PyJson.obj [("content", PyJson.str c), ("reasoning_content", PyJson.str r)])]])]
      = .ok tp := by
    unfold proposePrimary
    rw [hec]
    dsimp only
    rw [hej]
    dsimp only
    exact hvp
  refine ⟨?_, hprops.1, hprops.2⟩
  unfold proposeFromResponse
  rw [hpp]

/-- Witness for C10: blank content, reasoning text carrying a JSON
payload, a decoder recognising exactly that payload — the returned
proposal keeps the payload's confidence 1, not 0.35. -/
theorem claim_C10_reasoning_as_content_witness :
    pyStrip "  " = "" ∧
    pyStrip "json follows" ≠ "" ∧
    extractJson
        (fun s => if s = "json follows"
          then some (PyJson.obj
            [("titles", PyJson.arr [PyJson.str "Deep Residual Learning for Image Recognition"]),
             ("reason", PyJson.str "seminal residual network paper"),
             ("confidence", PyJson.num 1)])
          else none)
        (fun _ => none) (pyStrip "json follows")
      = Except.ok
          [("titles", PyJson.arr [PyJson.str "Deep Residual Learning for Image Recognition"]),
           ("reason", PyJson.str "seminal residual network paper"),
           ("confidence", PyJson.num 1)] ∧
    validatePayloadJ
        [("titles", PyJson.arr [PyJson.str "Deep Residual Learning for Image Recognition"]),
         ("reason", PyJson.str "seminal residual network paper"),
         ("confidence", PyJson.num 1)]
      = Except.ok ⟨["Deep Residual Learning for Image Recognition"],
          "seminal residual network paper", 1⟩ ∧
    proposeFromResponse
        (fun s => if s = "json follows"
          then some (PyJson.obj
            [("titles", PyJson.arr [PyJson.str "Deep Residual Learning for Image Recognition"]),
             ("reason", PyJson.str "seminal residual network paper"),
             ("confidence", PyJson.num 1)])
          else none)
        (fun _ => none)
        [("choices", PyJson.arr [PyJson.obj [("message",
          PyJson.obj [("content", PyJson.str "  "),
                      ("reasoning_content", PyJson.str "json follows")])]])]
      = Except.ok ⟨["Deep Residual Learning for Image Recognition"],
          "seminal residual network paper", 1⟩ := by
  have hej : extractJson
      (fun s => if s = "json follows"
        then some (PyJson.obj
          [("titles", PyJson.arr [PyJson.str "Deep Residual Learning for Image Recognition"]),
           ("reason", PyJson.str "seminal residual network paper"),
           ("confidence", PyJson.num 1)])
        else none)
      (fun _ => none) (pyStrip "json follows")
      = Except.ok
          [("titles", PyJson.arr [PyJson.str "Deep Residual Learning for Image Recognition"]),
           ("reason", PyJson.str "seminal residual network paper"),
           ("confidence", PyJson.num 1)] := by rfl
  have hvp : validatePayloadJ
      [("titles", PyJson.arr [PyJson.str "Deep Residual Learning for Image Recognition"]),
       ("reason", PyJson.str "seminal residual network paper"),
       ("confidence", PyJson.num 1)]
      = Except.ok ⟨["Deep Residual Learning for Image Recognition"],
          "seminal residual network paper", 1⟩ := by rfl
  have h := claim_C10_reasoning_as_content "  " "json follows" (by rfl) (by decide)
  exact ⟨by rfl, by decide, hej, hvp,
    (h.2 _ _ _ _ hej hvp).1⟩

end PaperFetch
